import Mathlib

/-! Reference-counted `SmartPointer`, `Matrix` and `Rectangle` of `hw031125.cpp`

A shallow embedding of `SmartPointerNamespace::SmartPointer<T>` and of its array
specialization `SmartPointer<T[]>`, followed by `MatrixNamespace::Matrix` with its
iterator and by the constructor check of `Rectangle<T>`.

* A handle object is identified by a `HandleId` (the address of the object, the thing
  `this != &other` compares); its only field is `pointer`.
* `static int reference_count` is one counter per specialization, a field of the world.
  The C++ `int` is modelled by `Int`: leaving the range of `int` takes `2^31` handles
  alive at once and is undefined behaviour in C++.
* The free store is a finite map from addresses to stored objects; `delete` removes the
  object and is recorded in a log, so that a repeated `delete` of one address (undefined
  behaviour in C++) stays visible as a repeated log entry.
* A handle object may itself be stored inside an object of the free store (a member of a
  list node, say). Copy assignment, which reads `other.pointer` after `delete pointer`,
  takes the placement of the handle objects as `home`; programs of operations are over
  handle objects that are variables of the program.
* `int` arithmetic on matrix entries and on point coordinates wraps (`wrapInt`).
-/

namespace SmartPointerNamespace

/-- Address of an object in the free store. -/
abbrev Addr := Nat

/-- A raw `T*`: `none` is `nullptr`. -/
abbrev Ptr := Option Addr

/-- Identity of a handle object (what `this` and `&other` are). -/
abbrev HandleId := Nat

/-- One call of `delete pointer` (`single`) or of `delete[] pointer` (`array`). -/
inductive Release where
  | single (a : Addr)
  | array (a : Addr)
  deriving DecidableEq, Repr

/-- The same deletion, seen as a `delete[]`. -/
def Release.toArray : Release → Release
  | Release.single a => Release.array a
  | Release.array a => Release.array a

/-- The same deletion, seen as a `delete` of a single object. -/
def Release.toSingle : Release → Release
  | Release.single a => Release.single a
  | Release.array a => Release.single a

/-- The nested exception class; `error_message` is what `what()` returns. -/
structure SmartPointerException where
  error_message : String
  deriving DecidableEq, Repr

/-- The `pointer` field of the live handle `h`, `none` when no such handle is alive. -/
def findHandle : List (HandleId × Ptr) → HandleId → Option Ptr
  | [], _ => none
  | (k, p) :: rest, h => if k = h then some p else findHandle rest h

/-- Store `q` in the `pointer` field of the live handle `h`. -/
def setHandle : List (HandleId × Ptr) → HandleId → Ptr → List (HandleId × Ptr)
  | [], _, _ => []
  | (k, p) :: rest, h, q => if k = h then (k, q) :: rest else (k, p) :: setHandle rest h q

/-- End of the lifetime of the handle object `h`. -/
def eraseHandle : List (HandleId × Ptr) → HandleId → List (HandleId × Ptr)
  | [], _ => []
  | (k, p) :: rest, h => if k = h then rest else (k, p) :: eraseHandle rest h

/-- Number of live handles whose `pointer` is not `nullptr`. -/
def liveNonNull (hs : List (HandleId × Ptr)) : Nat :=
  hs.countP (fun e => e.2.isSome)

/-- State of one specialization: the live handle objects, the static counter, the free
store (objects of type `β` by address) and the log of `delete` calls, latest first. -/
structure World (β : Type) where
  handles : List (HandleId × Ptr)
  reference_count : Int
  heap : List (Addr × β)
  released : List Release
  deriving DecidableEq, Repr

namespace World

variable {β : Type}

/-- No handles, `reference_count = 0` (the static initializer), nothing deleted yet. -/
def init (heap : List (Addr × β)) : World β :=
  { handles := [], reference_count := 0, heap := heap, released := [] }

/-- The object stored at address `a`; `none` when nothing is allocated there. -/
def load : List (Addr × β) → Addr → Option β
  | [], _ => none
  | (k, v) :: rest, a => if k = a then some v else load rest a

/-- Replace the object stored at address `a` by `v` (a store through a reference). -/
def store : List (Addr × β) → Addr → β → List (Addr × β)
  | [], _, _ => []
  | (k, x) :: rest, a, v => if k = a then (k, v) :: rest else (k, x) :: store rest a v

/-- Whether an object is allocated at address `a`. -/
def allocated (w : World β) (a : Addr) : Bool :=
  (load w.heap a).isSome

/-- The expression `new T(v)` of the caller, yielding the address `a`. -/
def new_object (w : World β) (a : Addr) (v : β) : World β :=
  { w with heap := (a, v) :: w.heap }

/-- The destructor of the object at `a`, as `delete` runs it once the counter has reached
zero: the handle objects that are stored inside the object (`home` gives, for a handle
object, the object of the free store it is a subobject of) are destroyed with it. Each of
them that is non-null decrements the counter, which is then below zero, so that none of
them deletes anything; all of them end their lifetime. -/
def destroy_members (home : HandleId → Option Addr) (w : World β) (a : Addr) : World β :=
  { w with
    handles := w.handles.filter (fun e => !(home e.1 == some a))
    reference_count :=
      w.reference_count - liveNonNull (w.handles.filter (fun e => home e.1 == some a)) }

/-- The deallocation of `delete pointer;`. -/
def delete_single (w : World β) (a : Addr) : World β :=
  { w with heap := w.heap.filter (fun c => c.1 != a), released := Release.single a :: w.released }

/-- The deallocation of `delete[] pointer;`. -/
def delete_array (w : World β) (a : Addr) : World β :=
  { w with heap := w.heap.filter (fun c => c.1 != a), released := Release.array a :: w.released }

end World

/-- The lifetime operations of a handle, as a program can issue them. -/
inductive Op where
  | construct (this : HandleId) (p : Ptr)
  | copy_construct (this other : HandleId)
  | assign (this other : HandleId)
  | destroy (this : HandleId)
  deriving DecidableEq, Repr

/-! ## The primary template `SmartPointer<T>` -/

namespace SmartPointer

variable {T : Type}

/-- Constructor `SmartPointer(T* p = nullptr)`. The object `this` starts its lifetime, so
no live handle has that identity. -/
def construct (w : World T) (this : HandleId) (p : Ptr) : Option (World T) :=
  match findHandle w.handles this with
  | some _ => none
  | none =>
    let w1 : World T := { w with handles := (this, p) :: w.handles }
    if p.isSome then
      some { w1 with reference_count := w1.reference_count + 1 }
    else
      some w1

/-- Copy constructor `SmartPointer(const SmartPointer& other)`; `other` is alive. -/
def copy_construct (w : World T) (this other : HandleId) : Option (World T) :=
  match findHandle w.handles this, findHandle w.handles other with
  | none, some other_pointer =>
    let w1 : World T := { w with handles := (this, other_pointer) :: w.handles }
    if other_pointer.isSome then
      some { w1 with reference_count := w1.reference_count + 1 }
    else
      some w1
  | _, _ => none

/-- Copy assignment `operator=(const SmartPointer& other)`; both objects are alive at the
call. `home` tells where handle objects are stored. The release step comes first:
`delete pointer` destroys the object with the handle objects stored inside it and frees
it. Only then `other.pointer` is read and `pointer` written: when `delete` has ended the
lifetime of `other` or of `this` (as in `head = head->next` with `head` the last handle
on the node), there is no defined result. -/
def assign (home : HandleId → Option Addr) (w : World T) (this other : HandleId) :
    Option (World T) :=
  match findHandle w.handles this, findHandle w.handles other with
  | some pointer, some _ =>
    if this ≠ other then
      let w1 : World T :=
        match pointer with
        | some a =>
          let w0 : World T := { w with reference_count := w.reference_count - 1 }
          if w0.reference_count = 0 then (w0.destroy_members home a).delete_single a else w0
        | none => w
      match findHandle w1.handles this, findHandle w1.handles other with
      | some _, some other_pointer =>
        let w2 : World T := { w1 with handles := setHandle w1.handles this other_pointer }
        if other_pointer.isSome then
          some { w2 with reference_count := w2.reference_count + 1 }
        else
          some w2
      | _, _ => none
    else
      some w
  | _, _ => none

/-- Destructor `~SmartPointer()`, followed by the end of the lifetime of `this`. -/
def destroy (w : World T) (this : HandleId) : Option (World T) :=
  match findHandle w.handles this with
  | none => none
  | some pointer =>
    let w1 : World T :=
      match pointer with
      | some a =>
        let w0 : World T := { w with reference_count := w.reference_count - 1 }
        if w0.reference_count = 0 then w0.delete_single a else w0
      | none => w
    some { w1 with handles := eraseHandle w1.handles this }

/-- The accessor `T& operator*()`: the exception, or the location `*pointer` refers to. -/
def operator_star (w : World T) (this : HandleId) :
    Option (Except SmartPointerException Addr × World T) :=
  match findHandle w.handles this with
  | none => none
  | some pointer =>
    match pointer with
    | none => some (Except.error ⟨"Неверный указатель"⟩, w)
    | some a => some (Except.ok a, w)

/-- The accessor `T* operator->()`: the exception, or `pointer` itself. -/
def operator_arrow (w : World T) (this : HandleId) :
    Option (Except SmartPointerException Addr × World T) :=
  match findHandle w.handles this with
  | none => none
  | some pointer =>
    match pointer with
    | none => some (Except.error ⟨"Неверный указатель"⟩, w)
    | some a => some (Except.ok a, w)

/-- The static member function `get_reference_count()`. -/
def get_reference_count (w : World T) : Int :=
  w.reference_count

/-- The conversion `explicit operator bool() const`. -/
def operator_bool (w : World T) (this : HandleId) : Option (Bool × World T) :=
  match findHandle w.handles this with
  | none => none
  | some pointer => some (pointer != none, w)

/-- Reading through the reference that `operator*` returned. -/
def read (w : World T) (r : Except SmartPointerException Addr) : Option T :=
  match r with
  | Except.ok a => World.load w.heap a
  | Except.error _ => none

/-- One operation of a program whose handle objects are variables of the program, none
of them stored inside an object of the free store. -/
def step (w : World T) : Op → Option (World T)
  | Op.construct this p => construct w this p
  | Op.copy_construct this other => copy_construct w this other
  | Op.assign this other => assign (fun _ => none) w this other
  | Op.destroy this => destroy w this

/-- A program: the operations in order; `none` when one of them is not expressible
(an object used outside its lifetime). -/
def run (w : World T) : List Op → Option (World T)
  | [] => some w
  | op :: ops =>
    match step w op with
    | none => none
    | some w1 => run w1 ops

end SmartPointer

/-! ## The partial specialization `SmartPointer<T[]>`

Its `reference_count` is a static member of its own, so it has a world of its own. The
free store holds arrays; the location of element `index` of the array at `a` is the
pair `(a, index)`. -/

namespace SmartPointerArray

variable {T : Type}

/-- Constructor `SmartPointer(T* p = nullptr)` of the specialization. -/
def construct (w : World (List T)) (this : HandleId) (p : Ptr) : Option (World (List T)) :=
  match findHandle w.handles this with
  | some _ => none
  | none =>
    let w1 : World (List T) := { w with handles := (this, p) :: w.handles }
    if p.isSome then
      some { w1 with reference_count := w1.reference_count + 1 }
    else
      some w1

/-- Copy constructor of the specialization. -/
def copy_construct (w : World (List T)) (this other : HandleId) : Option (World (List T)) :=
  match findHandle w.handles this, findHandle w.handles other with
  | none, some other_pointer =>
    let w1 : World (List T) := { w with handles := (this, other_pointer) :: w.handles }
    if other_pointer.isSome then
      some { w1 with reference_count := w1.reference_count + 1 }
    else
      some w1
  | _, _ => none

/-- Copy assignment of the specialization; the release is `delete[]`, which destroys the
elements with the handle objects stored inside them before `other.pointer` is read. -/
def assign (home : HandleId → Option Addr) (w : World (List T)) (this other : HandleId) :
    Option (World (List T)) :=
  match findHandle w.handles this, findHandle w.handles other with
  | some pointer, some _ =>
    if this ≠ other then
      let w1 : World (List T) :=
        match pointer with
        | some a =>
          let w0 : World (List T) := { w with reference_count := w.reference_count - 1 }
          if w0.reference_count = 0 then (w0.destroy_members home a).delete_array a else w0
        | none => w
      match findHandle w1.handles this, findHandle w1.handles other with
      | some _, some other_pointer =>
        let w2 : World (List T) := { w1 with handles := setHandle w1.handles this other_pointer }
        if other_pointer.isSome then
          some { w2 with reference_count := w2.reference_count + 1 }
        else
          some w2
      | _, _ => none
    else
      some w
  | _, _ => none

/-- Destructor of the specialization; the release is `delete[]`. -/
def destroy (w : World (List T)) (this : HandleId) : Option (World (List T)) :=
  match findHandle w.handles this with
  | none => none
  | some pointer =>
    let w1 : World (List T) :=
      match pointer with
      | some a =>
        let w0 : World (List T) := { w with reference_count := w.reference_count - 1 }
        if w0.reference_count = 0 then w0.delete_array a else w0
      | none => w
    some { w1 with handles := eraseHandle w1.handles this }

/-- The accessor `T& operator[](int index)`: the exception, or the location
`pointer[index]`; the index is not checked. -/
def operator_index (w : World (List T)) (this : HandleId) (index : Int) :
    Option (Except SmartPointerException (Addr × Int) × World (List T)) :=
  match findHandle w.handles this with
  | none => none
  | some pointer =>
    match pointer with
    | none => some (Except.error ⟨"Неверный указатель"⟩, w)
    | some a => some (Except.ok (a, index), w)

/-- The accessor `T& operator*()`: the exception, or the location `*pointer`, which is
element `0` of the array. -/
def operator_star (w : World (List T)) (this : HandleId) :
    Option (Except SmartPointerException (Addr × Int) × World (List T)) :=
  match findHandle w.handles this with
  | none => none
  | some pointer =>
    match pointer with
    | none => some (Except.error ⟨"Неверный указатель"⟩, w)
    | some a => some (Except.ok (a, 0), w)

/-- The accessor `T* operator->()`: the exception, or `pointer` itself. -/
def operator_arrow (w : World (List T)) (this : HandleId) :
    Option (Except SmartPointerException Addr × World (List T)) :=
  match findHandle w.handles this with
  | none => none
  | some pointer =>
    match pointer with
    | none => some (Except.error ⟨"Неверный указатель"⟩, w)
    | some a => some (Except.ok a, w)

/-- The static member function `get_reference_count()` of the specialization. -/
def get_reference_count (w : World (List T)) : Int :=
  w.reference_count

/-- Reading through a reference to an array element; `none` outside the array. -/
def read (w : World (List T)) (r : Except SmartPointerException (Addr × Int)) : Option T :=
  match r with
  | Except.ok (a, i) =>
    match World.load w.heap a with
    | some block => if 0 ≤ i then block.get? i.toNat else none
    | none => none
  | Except.error _ => none

/-- The assignment `r = v` through a reference to an array element, as in
`array_pointer[i] = i;`. Outside the array there is no defined result. -/
def write (w : World (List T)) (r : Except SmartPointerException (Addr × Int)) (v : T) :
    Option (World (List T)) :=
  match r with
  | Except.ok (a, i) =>
    match World.load w.heap a with
    | some block =>
      if 0 ≤ i ∧ i.toNat < block.length then
        some { w with heap := World.store w.heap a (block.set i.toNat v) }
      else
        none
    | none => none
  | Except.error _ => none

/-- One operation of a program over the specialization, its handle objects being
variables of the program. -/
def step (w : World (List T)) : Op → Option (World (List T))
  | Op.construct this p => construct w this p
  | Op.copy_construct this other => copy_construct w this other
  | Op.assign this other => assign (fun _ => none) w this other
  | Op.destroy this => destroy w this

/-- A program over the specialization. -/
def run (w : World (List T)) : List Op → Option (World (List T))
  | [] => some w
  | op :: ops =>
    match step w op with
    | none => none
    | some w1 => run w1 ops

end SmartPointerArray

/-! ## Notions used to state the properties -/

/-- Every non-null live handle points at the address `p`, and an object is allocated
there: the handles of the world share the one allocation `p`. -/
def sharesOne {β : Type} (p : Addr) (w : World β) : Bool :=
  w.handles.all (fun e => e.2 == none || (e.2 == some p && w.allocated p))

/-- The worlds a program passes through after each of its operations, in order. -/
def SmartPointer.trace {T : Type} (w : World T) : List Op → List (World T)
  | [] => []
  | op :: ops =>
    match SmartPointer.step w op with
    | none => []
    | some w1 => w1 :: SmartPointer.trace w1 ops

end SmartPointerNamespace

/-! ## The class `Matrix` of `MatrixNamespace` -/

namespace MatrixNamespace

/-- The value of an `int` expression whose exact result is `x`: the representative of
`x` modulo `2^32` in the range of a 32-bit `int`. Where the exact result is in that range
this is `x` itself; outside it C++ leaves the behaviour undefined, and the model wraps
as two's-complement hardware does. -/
def wrapInt (x : Int) : Int :=
  (x + 2147483648) % 4294967296 - 2147483648

/-- The exception class of the namespace; `error_message` is what `what()` returns. -/
structure MatrixException where
  error_message : String
  deriving DecidableEq, Repr

/-- The class `Matrix`: `matrix_data` is the array of `row_count` row arrays. The static
`matrix_count`, which no operation below reads, is not part of the state. -/
structure Matrix where
  row_count : Int
  column_count : Int
  matrix_data : List (List Int)
  deriving DecidableEq, Repr

/-- The iterations `0, 1, .., n - 1` of a counting loop, in order, on the state `s`. -/
def loopN {σ : Type} (body : Nat → σ → σ) : Nat → σ → σ
  | 0, s => s
  | k + 1, s => body k (loopN body k s)

/-- The statement `for (int i = 0; i < n; i++) body`. -/
def forLoop {σ : Type} (n : Int) (body : Nat → σ → σ) (s : σ) : σ :=
  loopN body n.toNat s

/-- The raw read `matrix_data[i][j]`; inside the allocated rows it is the stored cell. -/
def cell (d : List (List Int)) (i j : Nat) : Int :=
  (d.getD i []).getD j 0

/-- The raw store `matrix_data[i][j] = v`. -/
def setCell (d : List (List Int)) (i j : Nat) (v : Int) : List (List Int) :=
  d.set i ((d.getD i []).set j v)

/-- The member `allocate_matrix_memory()`: `new int*[row_count]`, then a zero-initialized
`new int[column_count]()` for each row. -/
def allocate_matrix_memory (row_count column_count : Int) : List (List Int) :=
  forLoop row_count (fun i d => d.set i (List.replicate column_count.toNat 0))
    (List.replicate row_count.toNat [])

/-- Constructor `Matrix(int rows, int columns)`. -/
def Matrix.construct (rows columns : Int) : Except MatrixException Matrix :=
  if rows ≤ 0 ∨ columns ≤ 0 then
    Except.error ⟨"Неверные размеры матрицы"⟩
  else
    Except.ok ⟨rows, columns, allocate_matrix_memory rows columns⟩

/-- The accessor `int& operator()(int row, int column)`: the exception, or the location
of `matrix_data[row][column]`. -/
def Matrix.operator_call (m : Matrix) (row column : Int) :
    Except MatrixException (Nat × Nat) :=
  if row < 0 ∨ row ≥ m.row_count ∨ column < 0 ∨ column ≥ m.column_count then
    Except.error ⟨"Выход за границы матрицы"⟩
  else
    Except.ok (row.toNat, column.toNat)

/-- Reading through a reference that `operator()` returned. -/
def Matrix.read (m : Matrix) (loc : Nat × Nat) : Int :=
  cell m.matrix_data loc.1 loc.2

/-- The assignment `m(row, column) = v` through a reference that `operator()` returned. -/
def Matrix.write (m : Matrix) (loc : Nat × Nat) (v : Int) : Matrix :=
  { m with matrix_data := setCell m.matrix_data loc.1 loc.2 v }

/-- The operator `Matrix operator+(const Matrix& other) const`. -/
def Matrix.operator_plus (this other : Matrix) : Except MatrixException Matrix :=
  if this.row_count ≠ other.row_count ∨ this.column_count ≠ other.column_count then
    Except.error ⟨"Неверные размеры для сложения матриц"⟩
  else
    match Matrix.construct this.row_count this.column_count with
    | Except.error e => Except.error e
    | Except.ok result_matrix =>
      let data : List (List Int) :=
        forLoop this.row_count (fun i d =>
          forLoop this.column_count (fun j d =>
            setCell d i j
              (wrapInt (cell this.matrix_data i j + cell other.matrix_data i j))) d)
          result_matrix.matrix_data
      Except.ok { result_matrix with matrix_data := data }

/-- The operator `Matrix operator*(const Matrix& other) const`. -/
def Matrix.operator_times (this other : Matrix) : Except MatrixException Matrix :=
  if this.column_count ≠ other.row_count then
    Except.error ⟨"Неверные размеры для умножения матриц"⟩
  else
    match Matrix.construct this.row_count other.column_count with
    | Except.error e => Except.error e
    | Except.ok result_matrix =>
      let data : List (List Int) :=
        forLoop this.row_count (fun i d =>
          forLoop other.column_count (fun j d =>
            forLoop this.column_count (fun k d =>
              setCell d i j
                (wrapInt (cell d i j
                  + wrapInt (cell this.matrix_data i k * cell other.matrix_data k j)))) d) d)
          result_matrix.matrix_data
      Except.ok { result_matrix with matrix_data := data }

/-- The class invariant: positive dimensions, `row_count` rows of `column_count` cells. -/
def Matrix.wellFormed (m : Matrix) : Bool :=
  decide (0 < m.row_count) && decide (0 < m.column_count) &&
    decide (m.matrix_data.length = m.row_count.toNat) &&
    m.matrix_data.all (fun row => decide (row.length = m.column_count.toNat))

/-- The nested class `Matrix::Iterator`; its `matrix_ref` is passed alongside. -/
structure Iterator where
  current_row : Int
  current_column : Int
  deriving DecidableEq, Repr

/-- The member `Iterator begin()`. -/
def Matrix.begin (_m : Matrix) : Iterator :=
  ⟨0, 0⟩

/-- The member `Iterator end()`. -/
def Matrix.end_ (m : Matrix) : Iterator :=
  ⟨m.row_count, 0⟩

/-- The accessor `int& Iterator::operator*()`. -/
def Iterator.operator_star (m : Matrix) (it : Iterator) : Except MatrixException (Nat × Nat) :=
  m.operator_call it.current_row it.current_column

/-- The step `Iterator& Iterator::operator++()`. -/
def Iterator.operator_increment (m : Matrix) (it : Iterator) : Iterator :=
  let it1 : Iterator := { it with current_column := it.current_column + 1 }
  if it1.current_column ≥ m.column_count then
    { current_row := it1.current_row + 1, current_column := 0 }
  else
    it1

/-- The comparison `bool Iterator::operator!=(const Iterator& other) const`. -/
def Iterator.operator_ne (it other : Iterator) : Bool :=
  it.current_row != other.current_row || it.current_column != other.current_column

/-- The loop `for (auto it = ...; it != m.end(); ++it)` of `main` around `*it`, started
at `it`: the values read, or the exception that ended the loop; `none` when the fuel
does not suffice. -/
def traverse (m : Matrix) : Nat → Iterator → Option (Except MatrixException (List Int))
  | 0, _ => none
  | fuel + 1, it =>
    if Iterator.operator_ne it m.end_ then
      match Iterator.operator_star m it with
      | Except.error e => some (Except.error e)
      | Except.ok loc =>
        match traverse m fuel (Iterator.operator_increment m it) with
        | some (Except.ok rest) => some (Except.ok (m.read loc :: rest))
        | some (Except.error e) => some (Except.error e)
        | none => none
    else
      some (Except.ok [])

/-- The data has `R` rows of `C` cells each. -/
def Dims (d : List (List Int)) (R C : Nat) : Prop :=
  d.length = R ∧ ∀ i, i < R → (d.getD i []).length = C

/-- The block `B` keeps the shape of `R × C` data, replaces every cell `(i, j)` of the
region `S` by `V i j` of its old value, and leaves every other cell as it was. -/
def Updates (R C : Nat) (B : List (List Int) → List (List Int)) (S : Nat → Nat → Prop)
    (V : Nat → Nat → Int → Int) : Prop :=
  ∀ d, Dims d R C → Dims (B d) R C ∧
    (∀ i j, S i j → cell (B d) i j = V i j (cell d i j)) ∧
    (∀ i j, ¬ S i j → cell (B d) i j = cell d i j)

end MatrixNamespace

/-! ## The shape classes (global scope of the source) -/

namespace Shapes

/-- The struct `Point<T>` at `T = int`, as `main` uses it; the coordinates are values of
the type `int`. -/
structure Point where
  x : Int
  y : Int
  deriving DecidableEq, Repr

/-- The exception `std::invalid_argument`; `what` is its message. -/
structure InvalidArgument where
  what : String
  deriving DecidableEq, Repr

/-- Constructor `Polygon(const std::vector<Point<T>>&)` with its `check_validity()`; the
result is the member `vertices`. The static `instance_count` is not part of the state. -/
def Polygon.construct (vertex_list : List Point) : Except InvalidArgument (List Point) :=
  if vertex_list.length < 3 then
    Except.error ⟨"Фигура должна иметь минимум 3 точки"⟩
  else
    Except.ok vertex_list

/-- The lambda `squared_distance` of `check_rectangle_property`; every operation is an
`int` operation. -/
def squared_distance (a b : Point) : Int :=
  MatrixNamespace.wrapInt
    (MatrixNamespace.wrapInt
        (MatrixNamespace.wrapInt (a.x - b.x) * MatrixNamespace.wrapInt (a.x - b.x))
      + MatrixNamespace.wrapInt
        (MatrixNamespace.wrapInt (a.y - b.y) * MatrixNamespace.wrapInt (a.y - b.y)))

/-- The element `v[i]` of the vertex vector. -/
def vertex (v : List Point) (i : Nat) : Point :=
  v.getD i ⟨0, 0⟩

/-- The member `Rectangle::check_rectangle_property()`. -/
def Rectangle.check_rectangle_property (v : List Point) : Bool :=
  squared_distance (vertex v 0) (vertex v 1) == squared_distance (vertex v 2) (vertex v 3) &&
  squared_distance (vertex v 1) (vertex v 2) == squared_distance (vertex v 3) (vertex v 0) &&
  squared_distance (vertex v 0) (vertex v 2) == squared_distance (vertex v 1) (vertex v 3)

/-- Constructor `Rectangle(vertex1, vertex2, vertex3, vertex4)`. -/
def Rectangle.construct (vertex1 vertex2 vertex3 vertex4 : Point) :
    Except InvalidArgument (List Point) :=
  match Polygon.construct [vertex1, vertex2, vertex3, vertex4] with
  | Except.error e => Except.error e
  | Except.ok vertices =>
    if !Rectangle.check_rectangle_property vertices then
      Except.error ⟨"Точки не образуют прямоугольник"⟩
    else
      Except.ok vertices

/-- The radicand of `width_value` in `Rectangle::area()`, an `int` expression. -/
def Rectangle.width_squared (v : List Point) : Int :=
  MatrixNamespace.wrapInt
    (MatrixNamespace.wrapInt
        (MatrixNamespace.wrapInt ((vertex v 0).x - (vertex v 1).x)
          * MatrixNamespace.wrapInt ((vertex v 0).x - (vertex v 1).x))
      + MatrixNamespace.wrapInt
        (MatrixNamespace.wrapInt ((vertex v 0).y - (vertex v 1).y)
          * MatrixNamespace.wrapInt ((vertex v 0).y - (vertex v 1).y)))

/-- The radicand of `height_value` in `Rectangle::area()`, an `int` expression. -/
def Rectangle.height_squared (v : List Point) : Int :=
  MatrixNamespace.wrapInt
    (MatrixNamespace.wrapInt
        (MatrixNamespace.wrapInt ((vertex v 1).x - (vertex v 2).x)
          * MatrixNamespace.wrapInt ((vertex v 1).x - (vertex v 2).x))
      + MatrixNamespace.wrapInt
        (MatrixNamespace.wrapInt ((vertex v 1).y - (vertex v 2).y)
          * MatrixNamespace.wrapInt ((vertex v 1).y - (vertex v 2).y)))

/-- The square of what `Rectangle::area()` returns, the product of the square roots of
the two `int` radicands (for radicands that are not negative, and apart from the
rounding of `double`). -/
def Rectangle.area_squared (v : List Point) : Int :=
  Rectangle.width_squared v * Rectangle.height_squared v

/-- The dot product of the edges `v0 v1` and `v1 v2`, in exact arithmetic. -/
def edge_dot (v : List Point) : Int :=
  ((vertex v 1).x - (vertex v 0).x) * ((vertex v 2).x - (vertex v 1).x) +
    ((vertex v 1).y - (vertex v 0).y) * ((vertex v 2).y - (vertex v 1).y)

/-- Twice the signed area of the quadrilateral `v0 v1 v2 v3` (shoelace formula), in
exact arithmetic. -/
def twice_signed_area (v : List Point) : Int :=
  ((vertex v 0).x * (vertex v 1).y - (vertex v 1).x * (vertex v 0).y) +
  ((vertex v 1).x * (vertex v 2).y - (vertex v 2).x * (vertex v 1).y) +
  ((vertex v 2).x * (vertex v 3).y - (vertex v 3).x * (vertex v 2).y) +
  ((vertex v 3).x * (vertex v 0).y - (vertex v 0).x * (vertex v 3).y)

end Shapes

namespace SmartPointerNamespace

/-! ## Handle tables -/

theorem liveNonNull_cons (k : HandleId) (p : Ptr) (hs : List (HandleId × Ptr)) :
    liveNonNull ((k, p) :: hs) = liveNonNull hs + (if p.isSome then 1 else 0) := by
  simp [liveNonNull, List.countP_cons]

theorem liveNonNull_setHandle (hs : List (HandleId × Ptr)) (h : HandleId) (p q : Ptr)
    (hp : findHandle hs h = some p) :
    liveNonNull (setHandle hs h q) + (if p.isSome then 1 else 0)
      = liveNonNull hs + (if q.isSome then 1 else 0) := by
  induction hs with
  | nil => simp [findHandle] at hp
  | cons e rest ih =>
    obtain ⟨k, r⟩ := e
    by_cases hk : k = h
    · simp [findHandle, hk] at hp
      subst hp
      simp [setHandle, hk, liveNonNull_cons]
      omega
    · simp [findHandle, hk] at hp
      have := ih hp
      simp [setHandle, hk, liveNonNull_cons]
      omega

theorem liveNonNull_eraseHandle (hs : List (HandleId × Ptr)) (h : HandleId) (p : Ptr)
    (hp : findHandle hs h = some p) :
    liveNonNull (eraseHandle hs h) + (if p.isSome then 1 else 0) = liveNonNull hs := by
  induction hs with
  | nil => simp [findHandle] at hp
  | cons e rest ih =>
    obtain ⟨k, r⟩ := e
    by_cases hk : k = h
    · simp [findHandle, hk] at hp
      subst hp
      simp [eraseHandle, hk, liveNonNull_cons]
    · simp [findHandle, hk] at hp
      have := ih hp
      simp [eraseHandle, hk, liveNonNull_cons]
      omega

theorem liveNonNull_pos_of_find (hs : List (HandleId × Ptr)) (h : HandleId) (a : Addr)
    (hp : findHandle hs h = some (some a)) : 0 < liveNonNull hs := by
  have := liveNonNull_eraseHandle hs h (some a) hp
  simp at this
  omega

theorem findHandle_eraseHandle_ne (hs : List (HandleId × Ptr)) (h k : HandleId) (hne : h ≠ k) :
    findHandle (eraseHandle hs h) k = findHandle hs k := by
  induction hs with
  | nil => rfl
  | cons e rest ih =>
    obtain ⟨j, r⟩ := e
    by_cases hj : j = h
    · subst hj
      simp [eraseHandle, findHandle, hne]
    · by_cases hjk : j = k
      · subst hjk
        simp [eraseHandle, findHandle, hj]
      · simp [eraseHandle, findHandle, hj, hjk, ih]

theorem findHandle_setHandle_ne (hs : List (HandleId × Ptr)) (h k : HandleId) (q : Ptr)
    (hne : h ≠ k) : findHandle (setHandle hs h q) k = findHandle hs k := by
  induction hs with
  | nil => rfl
  | cons e rest ih =>
    obtain ⟨j, r⟩ := e
    by_cases hj : j = h
    · subst hj
      simp [setHandle, findHandle, hne]
    · by_cases hjk : j = k
      · subst hjk
        simp [setHandle, findHandle, hj]
      · simp [setHandle, findHandle, hj, hjk, ih]

theorem findHandle_setHandle_self (hs : List (HandleId × Ptr)) (h : HandleId) (p q : Ptr)
    (hp : findHandle hs h = some p) : findHandle (setHandle hs h q) h = some q := by
  induction hs with
  | nil => simp [findHandle] at hp
  | cons e rest ih =>
    obtain ⟨j, r⟩ := e
    by_cases hj : j = h
    · simp [setHandle, findHandle, hj]
    · simp [findHandle, hj] at hp
      simp [setHandle, findHandle, hj, ih hp]

theorem two_le_liveNonNull (hs : List (HandleId × Ptr)) (h k : HandleId) (a b : Addr)
    (hne : h ≠ k) (hh : findHandle hs h = some (some a))
    (hk : findHandle hs k = some (some b)) : 2 ≤ liveNonNull hs := by
  have h1 := liveNonNull_eraseHandle hs h (some a) hh
  have h2 : findHandle (eraseHandle hs h) k = some (some b) := by
    rw [findHandle_eraseHandle_ne hs h k hne]; exact hk
  have h3 := liveNonNull_pos_of_find _ _ _ h2
  simp at h1
  omega

/-! ## Handle objects stored inside objects of the free store -/

theorem findHandle_filter_outside (home : HandleId → Option Addr)
    (hs : List (HandleId × Ptr)) (a : Addr) (k : HandleId) (hk : home k ≠ some a) :
    findHandle (hs.filter (fun e => !(home e.1 == some a))) k = findHandle hs k := by
  induction hs with
  | nil => rfl
  | cons e rest ih =>
    obtain ⟨j, r⟩ := e
    by_cases hj : home j = some a
    · have hjk : j ≠ k := by
        intro h
        rw [h] at hj
        exact hk hj
      simp [List.filter_cons, hj, findHandle, hjk, ih]
    · by_cases hjk : j = k
      · subst hjk
        simp [List.filter_cons, hj, findHandle]
      · simp [List.filter_cons, hj, findHandle, hjk, ih]

theorem findHandle_filter_inside (home : HandleId → Option Addr)
    (hs : List (HandleId × Ptr)) (a : Addr) (k : HandleId) (hk : home k = some a) :
    findHandle (hs.filter (fun e => !(home e.1 == some a))) k = none := by
  induction hs with
  | nil => rfl
  | cons e rest ih =>
    obtain ⟨j, r⟩ := e
    by_cases hj : home j = some a
    · simp [List.filter_cons, hj, ih]
    · have hjk : j ≠ k := by
        intro h
        rw [h] at hj
        exact hj hk
      simp [List.filter_cons, hj, findHandle, hjk, ih]

theorem liveNonNull_filter_null (f : HandleId × Ptr → Bool) (hs : List (HandleId × Ptr))
    (hnull : ∀ e ∈ hs, f e = true → e.2 = none) : liveNonNull (hs.filter f) = 0 := by
  simp only [liveNonNull, List.countP_eq_zero, List.mem_filter]
  intro e he
  rw [hnull e he.1 he.2]
  simp

theorem destroy_members_outside {β : Type} (w : World β) (a : Addr) :
    w.destroy_members (fun _ => none) a = w := by
  simp [World.destroy_members, liveNonNull]

/-! ## What each operation of the primary template yields -/

namespace SmartPointer

variable {T : Type}

theorem construct_eq (w : World T) (this : HandleId) (p : Ptr)
    (hfresh : findHandle w.handles this = none) :
    construct w this p = some
      { handles := (this, p) :: w.handles
        reference_count := w.reference_count + (if p.isSome then 1 else 0)
        heap := w.heap
        released := w.released } := by
  unfold construct
  rw [hfresh]
  cases p <;> simp

theorem copy_construct_eq (w : World T) (this other : HandleId) (q : Ptr)
    (hfresh : findHandle w.handles this = none) (hother : findHandle w.handles other = some q) :
    copy_construct w this other = some
      { handles := (this, q) :: w.handles
        reference_count := w.reference_count + (if q.isSome then 1 else 0)
        heap := w.heap
        released := w.released } := by
  unfold copy_construct
  rw [hfresh, hother]
  cases q <;> simp

/-- Between handle objects that are not stored in the free store the assignment is the
release step followed by the rebinding, the pointer of `other` being what it was. -/
theorem assign_outside (w : World T) (this other : HandleId) :
    assign (fun _ => none) w this other =
      match findHandle w.handles this, findHandle w.handles other with
      | some pointer, some other_pointer =>
        if this ≠ other then
          let w1 : World T :=
            match pointer with
            | some a =>
              let w0 : World T := { w with reference_count := w.reference_count - 1 }
              if w0.reference_count = 0 then w0.delete_single a else w0
            | none => w
          let w2 : World T := { w1 with handles := setHandle w1.handles this other_pointer }
          if other_pointer.isSome then
            some { w2 with reference_count := w2.reference_count + 1 }
          else
            some w2
        else
          some w
      | _, _ => none := by
  unfold assign
  cases hp : findHandle w.handles this with
  | none => rfl
  | some p =>
    cases hq : findHandle w.handles other with
    | none => rfl
    | some q =>
      by_cases hne : this = other
      · simp [hne]
      · cases p with
        | none => simp [hne, hp, hq]
        | some a =>
          by_cases hc : w.reference_count - 1 = 0
          · simp [hne, hc, destroy_members_outside, World.delete_single, hp, hq]
          · simp [hne, hc, hp, hq]

theorem assign_self (w : World T) (this : HandleId) (p : Ptr)
    (hthis : findHandle w.handles this = some p) :
    assign (fun _ => none) w this this = some w := by
  rw [assign_outside, hthis]
  simp

theorem assign_null (w : World T) (this other : HandleId) (q : Ptr) (hne : this ≠ other)
    (hthis : findHandle w.handles this = some none)
    (hother : findHandle w.handles other = some q) :
    assign (fun _ => none) w this other = some
      { handles := setHandle w.handles this q
        reference_count := w.reference_count + (if q.isSome then 1 else 0)
        heap := w.heap
        released := w.released } := by
  rw [assign_outside, hthis, hother]
  cases q <;> simp [hne]

theorem assign_last (w : World T) (this other : HandleId) (a : Addr) (q : Ptr)
    (hne : this ≠ other) (hthis : findHandle w.handles this = some (some a))
    (hother : findHandle w.handles other = some q) (hcount : w.reference_count - 1 = 0) :
    assign (fun _ => none) w this other = some
      { handles := setHandle w.handles this q
        reference_count := w.reference_count - 1 + (if q.isSome then 1 else 0)
        heap := w.heap.filter (fun c => c.1 != a)
        released := Release.single a :: w.released } := by
  rw [assign_outside, hthis, hother]
  cases q <;> simp [hne, hcount, World.delete_single]

theorem assign_shared (w : World T) (this other : HandleId) (a : Addr) (q : Ptr)
    (hne : this ≠ other) (hthis : findHandle w.handles this = some (some a))
    (hother : findHandle w.handles other = some q) (hcount : w.reference_count - 1 ≠ 0) :
    assign (fun _ => none) w this other = some
      { handles := setHandle w.handles this q
        reference_count := w.reference_count - 1 + (if q.isSome then 1 else 0)
        heap := w.heap
        released := w.released } := by
  rw [assign_outside, hthis, hother]
  cases q <;> simp [hne, hcount]

theorem destroy_null (w : World T) (this : HandleId)
    (hthis : findHandle w.handles this = some none) :
    destroy w this = some { w with handles := eraseHandle w.handles this } := by
  unfold destroy
  rw [hthis]

theorem destroy_last (w : World T) (this : HandleId) (a : Addr)
    (hthis : findHandle w.handles this = some (some a)) (hcount : w.reference_count - 1 = 0) :
    destroy w this = some
      { handles := eraseHandle w.handles this
        reference_count := w.reference_count - 1
        heap := w.heap.filter (fun c => c.1 != a)
        released := Release.single a :: w.released } := by
  unfold destroy
  rw [hthis]
  simp [hcount, World.delete_single]

theorem destroy_shared (w : World T) (this : HandleId) (a : Addr)
    (hthis : findHandle w.handles this = some (some a)) (hcount : w.reference_count - 1 ≠ 0) :
    destroy w this = some
      { handles := eraseHandle w.handles this
        reference_count := w.reference_count - 1
        heap := w.heap
        released := w.released } := by
  unfold destroy
  rw [hthis]
  simp [hcount]

theorem construct_some (w w1 : World T) (this : HandleId) (p : Ptr)
    (h : construct w this p = some w1) : findHandle w.handles this = none := by
  unfold construct at h
  cases hf : findHandle w.handles this with
  | none => rfl
  | some x => rw [hf] at h; simp at h

theorem copy_construct_some (w w1 : World T) (this other : HandleId)
    (h : copy_construct w this other = some w1) :
    findHandle w.handles this = none ∧ ∃ q, findHandle w.handles other = some q := by
  unfold copy_construct at h
  cases hf : findHandle w.handles this with
  | none =>
    cases hg : findHandle w.handles other with
    | none => rw [hf, hg] at h; simp at h
    | some q => exact ⟨rfl, q, rfl⟩
  | some x => rw [hf] at h; simp at h

theorem assign_some (w w1 : World T) (this other : HandleId)
    (h : assign (fun _ => none) w this other = some w1) :
    ∃ p q, findHandle w.handles this = some p ∧ findHandle w.handles other = some q := by
  rw [assign_outside] at h
  cases hf : findHandle w.handles this with
  | none => rw [hf] at h; simp at h
  | some p =>
    cases hg : findHandle w.handles other with
    | none => rw [hf, hg] at h; simp at h
    | some q => exact ⟨p, q, rfl, rfl⟩

theorem assign_self_anywhere (home : HandleId → Option Addr) (w : World T) (this : HandleId)
    (p : Ptr) (hthis : findHandle w.handles this = some p) :
    assign home w this this = some w := by
  unfold assign
  rw [hthis]
  simp

theorem assign_without_release (home : HandleId → Option Addr) (w : World T)
    (this other : HandleId) (p q : Ptr) (hne : this ≠ other)
    (hthis : findHandle w.handles this = some p)
    (hother : findHandle w.handles other = some q)
    (hno : ¬ (p.isSome = true ∧ w.reference_count - 1 = 0)) :
    assign home w this other = some
      { handles := setHandle w.handles this q
        reference_count := w.reference_count - (if p.isSome then 1 else 0)
          + (if q.isSome then 1 else 0)
        heap := w.heap
        released := w.released } := by
  unfold assign
  cases p with
  | none => cases q <;> simp [hthis, hother, hne]
  | some a =>
    have hc : ¬ w.reference_count - 1 = 0 := fun h => hno ⟨rfl, h⟩
    cases q <;> simp [hthis, hother, hne, hc]

theorem assign_with_release (home : HandleId → Option Addr) (w : World T)
    (this other : HandleId) (a : Addr) (q : Ptr) (hne : this ≠ other)
    (hthis : findHandle w.handles this = some (some a))
    (hother : findHandle w.handles other = some q)
    (hcount : w.reference_count - 1 = 0)
    (hth : home this ≠ some a) (hot : home other ≠ some a) :
    assign home w this other = some
      { handles := setHandle (w.handles.filter (fun e => !(home e.1 == some a))) this q
        reference_count := w.reference_count - 1
          - liveNonNull (w.handles.filter (fun e => home e.1 == some a))
          + (if q.isSome then 1 else 0)
        heap := w.heap.filter (fun c => c.1 != a)
        released := Release.single a :: w.released } := by
  have h1 := findHandle_filter_outside home w.handles a this hth
  have h2 := findHandle_filter_outside home w.handles a other hot
  rw [hthis] at h1
  rw [hother] at h2
  unfold assign
  cases q <;>
    simp [hthis, hother, hne, hcount, World.destroy_members, World.delete_single, h1, h2]

/-- With `other` stored inside the object that `this` points at and `this` the last
handle, `delete pointer` ends the lifetime of `other` before `other.pointer` is read. -/
theorem assign_undefined (home : HandleId → Option Addr) (w : World T)
    (this other : HandleId) (a : Addr) (q : Ptr) (hne : this ≠ other)
    (hthis : findHandle w.handles this = some (some a))
    (hother : findHandle w.handles other = some q)
    (hcount : w.reference_count - 1 = 0) (hot : home other = some a) :
    assign home w this other = none := by
  have h2 := findHandle_filter_inside home w.handles a other hot
  unfold assign
  simp only [hthis, hother, ne_eq, hne, not_false_eq_true, if_true, hcount,
    World.destroy_members, World.delete_single, h2]
  split <;> simp_all

theorem destroy_some (w w1 : World T) (this : HandleId)
    (h : destroy w this = some w1) : ∃ p, findHandle w.handles this = some p := by
  unfold destroy at h
  cases hf : findHandle w.handles this with
  | none => rw [hf] at h; simp at h
  | some p => exact ⟨p, rfl⟩

/-- One operation keeps the counter equal to the number of non-null live handles, and
it either deletes nothing, or it is the destruction or re-assignment of the only
non-null handle and deletes what that handle pointed at. -/
theorem step_effect (w w1 : World T) (op : Op)
    (hinv : w.reference_count = liveNonNull w.handles) (h : step w op = some w1) :
    w1.reference_count = liveNonNull w1.handles ∧
    ((w1.released = w.released ∧ w1.heap = w.heap ∧
        (liveNonNull w.handles = 0 ∨ 0 < liveNonNull w1.handles)) ∨
     (∃ this a, findHandle w.handles this = some (some a) ∧
        (op = Op.destroy this ∨ ∃ other, op = Op.assign this other) ∧
        w1.released = Release.single a :: w.released ∧
        w1.heap = w.heap.filter (fun c => c.1 != a) ∧
        liveNonNull w.handles = 1 ∧ liveNonNull w1.handles = 0)) := by
  cases op with
  | construct this p =>
    have hf := construct_some w w1 this p h
    have he := construct_eq w this p hf
    simp only [step] at h
    rw [he] at h
    injection h with h
    subst h
    refine ⟨?_, Or.inl ⟨rfl, rfl, ?_⟩⟩
    · simp only [liveNonNull_cons, hinv]
      split <;> simp
    · simp only [liveNonNull_cons]
      omega
  | copy_construct this other =>
    obtain ⟨hf, q, hq⟩ := copy_construct_some w w1 this other h
    have he := copy_construct_eq w this other q hf hq
    simp only [step] at h
    rw [he] at h
    injection h with h
    subst h
    refine ⟨?_, Or.inl ⟨rfl, rfl, ?_⟩⟩
    · simp only [liveNonNull_cons, hinv]
      split <;> simp
    · simp only [liveNonNull_cons]
      omega
  | assign this other =>
    obtain ⟨p, q, hp, hq⟩ := assign_some w w1 this other h
    simp only [step] at h
    by_cases hne : this = other
    · subst hne
      rw [assign_self w this p hp] at h
      injection h with h
      subst h
      exact ⟨hinv, Or.inl ⟨rfl, rfl, by omega⟩⟩
    · have hset := liveNonNull_setHandle w.handles this p q hp
      cases p with
      | none =>
        rw [assign_null w this other q hne hp hq] at h
        injection h with h
        subst h
        simp only [Option.isSome_none, Bool.false_eq_true, if_false, add_zero] at hset
        refine ⟨?_, Or.inl ⟨rfl, rfl, ?_⟩⟩
        · simp only [hset, hinv]
          split <;> simp
        · simp only [hset]
          omega
      | some a =>
        simp only [Option.isSome_some, if_true] at hset
        by_cases hc : w.reference_count - 1 = 0
        · rw [assign_last w this other a q hne hp hq hc] at h
          injection h with h
          subst h
          have hone : liveNonNull w.handles = 1 := by omega
          have hqn : q = none := by
            cases q with
            | none => rfl
            | some b =>
              have := two_le_liveNonNull w.handles this other a b hne hp hq
              omega
          subst hqn
          simp only [Option.isSome_none, Bool.false_eq_true, if_false, add_zero] at hset ⊢
          refine ⟨?_, Or.inr ⟨this, a, hp, Or.inr ⟨other, rfl⟩, rfl, rfl, hone, ?_⟩⟩
          · simp only [hc]
            omega
          · omega
        · rw [assign_shared w this other a q hne hp hq hc] at h
          injection h with h
          subst h
          have hge := liveNonNull_pos_of_find w.handles this a hp
          have hpos : 0 < liveNonNull (setHandle w.handles this q) := by
            cases q with
            | none =>
              simp only [Option.isSome_none, Bool.false_eq_true, if_false, add_zero] at hset
              omega
            | some b =>
              simp only [Option.isSome_some, if_true] at hset
              omega
          refine ⟨?_, Or.inl ⟨rfl, rfl, Or.inr hpos⟩⟩
          cases q <;> simp at hset ⊢ <;> omega
  | destroy this =>
    obtain ⟨p, hp⟩ := destroy_some w w1 this h
    simp only [step] at h
    have her := liveNonNull_eraseHandle w.handles this p hp
    cases p with
    | none =>
      rw [destroy_null w this hp] at h
      injection h with h
      subst h
      simp only [Option.isSome_none, Bool.false_eq_true, if_false, add_zero] at her
      refine ⟨?_, Or.inl ⟨rfl, rfl, ?_⟩⟩
      · simp only [her, hinv]
      · simp only [her]
        omega
    | some a =>
      simp only [Option.isSome_some, if_true] at her
      by_cases hc : w.reference_count - 1 = 0
      · rw [destroy_last w this a hp hc] at h
        injection h with h
        subst h
        refine ⟨?_, Or.inr ⟨this, a, hp, Or.inl rfl, rfl, rfl, ?_, ?_⟩⟩
        · simp only [hc]
          omega
        · omega
        · simp only
          omega
      · rw [destroy_shared w this a hp hc] at h
        injection h with h
        subst h
        refine ⟨?_, Or.inl ⟨rfl, rfl, ?_⟩⟩
        · simp only
          omega
        · right
          simp only
          omega

/-! ## Programs -/

theorem run_append_single (w0 w w1 : World T) (ops : List Op) (op : Op)
    (hrun : run w0 ops = some w) (hstep : step w op = some w1) :
    run w0 (ops ++ [op]) = some w1 ∧ trace w0 (ops ++ [op]) = trace w0 ops ++ [w1] := by
  induction ops generalizing w0 with
  | nil =>
    simp only [run] at hrun
    injection hrun with hrun
    subst hrun
    simp [run, trace, hstep]
  | cons o rest ih =>
    simp only [run] at hrun
    cases ho : step w0 o with
    | none => rw [ho] at hrun; simp at hrun
    | some w2 =>
      rw [ho] at hrun
      have := ih w2 hrun
      simp [run, trace, ho, this]

end SmartPointer

/-! ## Handles that share one allocation -/

theorem mem_of_findHandle (hs : List (HandleId × Ptr)) (h : HandleId) (q : Ptr)
    (hq : findHandle hs h = some q) : (h, q) ∈ hs := by
  induction hs with
  | nil => simp [findHandle] at hq
  | cons e rest ih =>
    obtain ⟨k, r⟩ := e
    by_cases hk : k = h
    · simp [findHandle, hk] at hq
      simp [hk, hq]
    · simp [findHandle, hk] at hq
      exact List.mem_cons_of_mem _ (ih hq)

theorem sharesOne_find {β : Type} (p a : Addr) (w : World β) (h : HandleId)
    (hs : sharesOne p w = true) (ha : findHandle w.handles h = some (some a)) :
    a = p ∧ w.allocated p = true := by
  have hmem := mem_of_findHandle _ _ _ ha
  simp only [sharesOne, List.all_eq_true] at hs
  have := hs _ hmem
  simpa using this

theorem sharesOne_all_null {β : Type} (p : Addr) (w : World β)
    (hs : sharesOne p w = true) (hfree : w.allocated p = false) : liveNonNull w.handles = 0 := by
  by_contra hne
  have hpos : 0 < liveNonNull w.handles := Nat.pos_of_ne_zero hne
  simp only [liveNonNull, List.countP_pos_iff] at hpos
  obtain ⟨e, he, hsome⟩ := hpos
  simp only [sharesOne, List.all_eq_true] at hs
  have := hs e he
  rw [hfree] at this
  cases h2 : e.2 with
  | none => rw [h2] at hsome; simp at hsome
  | some b => rw [h2] at this; simp at this

theorem load_filter_self {β : Type} (heap : List (Addr × β)) (a : Addr) :
    World.load (heap.filter (fun c => c.1 != a)) a = none := by
  induction heap with
  | nil => rfl
  | cons c rest ih =>
    obtain ⟨k, v⟩ := c
    by_cases hk : k = a
    · simp [List.filter_cons, hk, ih]
    · simp [List.filter_cons, hk, World.load, ih]

theorem load_filter_ne {β : Type} (heap : List (Addr × β)) (a b : Addr) (hne : b ≠ a) :
    World.load (heap.filter (fun c => c.1 != a)) b = World.load heap b := by
  induction heap with
  | nil => rfl
  | cons c rest ih =>
    obtain ⟨k, v⟩ := c
    by_cases hk : k = a
    · subst hk
      simp [List.filter_cons, World.load, ih, Ne.symm hne]
    · by_cases hkb : k = b
      · subst hkb
        simp [List.filter_cons, hk, World.load]
      · simp [List.filter_cons, hk, World.load, hkb, ih]

namespace SmartPointer

variable {T : Type}

/-- One operation between two worlds whose handles share the allocation `p`, when `p`
has been deleted at most once and is gone if it was. -/
theorem shared_step (p : Addr) (w w1 : World T) (op : Op)
    (hinv : w.reference_count = liveNonNull w.handles)
    (hs : sharesOne p w = true)
    (hlog : w.released = [] ∨ (w.released = [Release.single p] ∧ w.allocated p = false))
    (hstep : step w op = some w1) (hs1 : sharesOne p w1 = true) :
    (w1.released = [] ∨ (w1.released = [Release.single p] ∧ w1.allocated p = false)) ∧
    (w1.released = w.released ∨ w1.released = Release.single p :: w.released) ∧
    (w1.released = Release.single p :: w.released ↔
      (0 < liveNonNull w.handles ∧ liveNonNull w1.handles = 0)) ∧
    (w1.released = Release.single p :: w.released →
      ∃ this, findHandle w.handles this = some (some p) ∧ liveNonNull w.handles = 1 ∧
        (op = Op.destroy this ∨ ∃ other, op = Op.assign this other)) := by
  obtain ⟨_, heff⟩ := step_effect w w1 op hinv hstep
  rcases heff with ⟨hrel, hheap, hlive⟩ | ⟨this, a, hfind, hop, hrel, hheap, hone, hzero⟩
  · have hno : ¬ w1.released = Release.single p :: w.released := by
      rw [hrel]
      intro hcontra
      have := congrArg List.length hcontra
      simp at this
    refine ⟨?_, Or.inl hrel, ⟨fun hc => absurd hc hno, fun hc => by omega⟩,
      fun hc => absurd hc hno⟩
    rw [hrel]
    simpa only [World.allocated, hheap] using hlog
  · obtain ⟨hap, halloc⟩ := sharesOne_find p a w this hs hfind
    subst hap
    have hempty : w.released = [] := by
      rcases hlog with hnil | ⟨_, hfree⟩
      · exact hnil
      · rw [hfree] at halloc
        simp at halloc
    refine ⟨Or.inr ⟨by rw [hrel, hempty], ?_⟩, Or.inr hrel,
      ⟨fun _ => ⟨by omega, hzero⟩, fun _ => hrel⟩, fun _ => ⟨this, hfind, hone, hop⟩⟩
    simp only [World.allocated, hheap, load_filter_self, Option.isSome_none]

/-- A program all of whose worlds share the allocation `p` deletes `p` at most once. -/
theorem shared_run (p : Addr) (w0 w : World T) (ops : List Op)
    (hinv : w0.reference_count = liveNonNull w0.handles)
    (hs : sharesOne p w0 = true)
    (hlog : w0.released = [] ∨ (w0.released = [Release.single p] ∧ w0.allocated p = false))
    (hrun : run w0 ops = some w)
    (hshare : ∀ u ∈ trace w0 ops, sharesOne p u = true) :
    w.reference_count = liveNonNull w.handles ∧ sharesOne p w = true ∧
    (w.released = [] ∨ (w.released = [Release.single p] ∧ w.allocated p = false)) := by
  induction ops generalizing w0 with
  | nil =>
    simp only [run] at hrun
    injection hrun with hrun
    subst hrun
    exact ⟨hinv, hs, hlog⟩
  | cons o rest ih =>
    simp only [run] at hrun
    cases ho : step w0 o with
    | none => rw [ho] at hrun; simp at hrun
    | some w2 =>
      rw [ho] at hrun
      have htr : trace w0 (o :: rest) = w2 :: trace w2 rest := by simp [trace, ho]
      have hs2 : sharesOne p w2 = true := hshare w2 (by rw [htr]; exact List.mem_cons_self _ _)
      have hrest : ∀ u ∈ trace w2 rest, sharesOne p u = true := fun u hu =>
        hshare u (by rw [htr]; exact List.mem_cons_of_mem _ hu)
      exact ih w2 (step_effect w0 w2 o hinv ho).1 hs2
        (shared_step p w0 w2 o hinv hs hlog ho hs2).1 hrun hrest

end SmartPointer

/-! ## The properties -/

/-- C1: in a program over handles that share the one allocation `p` (started with no
handles and `reference_count = 0`), `p` is deleted at most once and nothing else is
deleted; the last operation of the program deletes `p` exactly when it brings the number
of non-null live handles from a positive number to zero, and it is then the destruction
or the re-assignment of the only handle left on `p`. -/
theorem SmartPointer.shared_allocation_released_once {T : Type} (heap : List (Addr × T))
    (p : Addr) (ops : List Op) (op : Op) (w w1 : World T)
    (hrun : SmartPointer.run (World.init heap) ops = some w)
    (hstep : SmartPointer.step w op = some w1)
    (hshare : ∀ u ∈ SmartPointer.trace (World.init heap) (ops ++ [op]), sharesOne p u = true) :
    (∀ r ∈ w1.released, r = Release.single p) ∧ w1.released.length ≤ 1 ∧
    (w1.released = w.released ∨ w1.released = Release.single p :: w.released) ∧
    (w1.released = Release.single p :: w.released ↔
      (0 < liveNonNull w.handles ∧ liveNonNull w1.handles = 0)) ∧
    (w1.released = Release.single p :: w.released →
      ∃ this, findHandle w.handles this = some (some p) ∧ liveNonNull w.handles = 1 ∧
        (op = Op.destroy this ∨ ∃ other, op = Op.assign this other)) := by
  obtain ⟨_, htrace⟩ := SmartPointer.run_append_single _ w w1 ops op hrun hstep
  rw [htrace] at hshare
  have hpre : ∀ u ∈ SmartPointer.trace (World.init heap) ops, sharesOne p u = true :=
    fun u hu => hshare u (List.mem_append_left _ hu)
  have hs1 : sharesOne p w1 = true := hshare w1 (by simp)
  obtain ⟨hinv, hs, hlog⟩ := SmartPointer.shared_run p (World.init heap) w ops rfl rfl
    (Or.inl rfl) hrun hpre
  obtain ⟨hlog1, hsteps⟩ := SmartPointer.shared_step p w w1 op hinv hs hlog hstep hs1
  refine ⟨?_, ?_, hsteps⟩
  · rcases hlog1 with h | ⟨h, _⟩ <;> simp [h]
  · rcases hlog1 with h | ⟨h, _⟩ <;> simp [h]

theorem SmartPointer.shared_allocation_released_once_witness :
    SmartPointer.run (World.init [(100, (42 : Int))])
        [Op.construct 0 (some 100), Op.copy_construct 1 0, Op.construct 2 none,
          Op.assign 2 0, Op.destroy 0, Op.assign 2 1, Op.destroy 2]
      = some ⟨[(1, some 100)], 1, [(100, 42)], []⟩ ∧
    SmartPointer.step (⟨[(1, some 100)], 1, [(100, 42)], []⟩ : World Int) (Op.destroy 1)
      = some ⟨[], 0, [], [Release.single 100]⟩ ∧
    ((∀ r ∈ [Release.single 100], r = Release.single 100) ∧
      [Release.single 100].length ≤ 1 ∧
      ([Release.single 100] = ([] : List Release) ∨
        [Release.single 100] = Release.single 100 :: []) ∧
      ([Release.single 100] = Release.single 100 :: [] ↔
        (0 < liveNonNull [(1, some 100)] ∧ liveNonNull [] = 0)) ∧
      ([Release.single 100] = Release.single 100 :: [] →
        ∃ this, findHandle [(1, some 100)] this = some (some 100) ∧
          liveNonNull [(1, some 100)] = 1 ∧
          (Op.destroy 1 = Op.destroy this ∨ ∃ other, Op.destroy 1 = Op.assign this other))) :=
  ⟨rfl, rfl, SmartPointer.shared_allocation_released_once [(100, (42 : Int))] 100
    [Op.construct 0 (some 100), Op.copy_construct 1 0, Op.construct 2 none,
      Op.assign 2 0, Op.destroy 0, Op.assign 2 1, Op.destroy 2]
    (Op.destroy 1) ⟨[(1, some 100)], 1, [(100, 42)], []⟩ ⟨[], 0, [], [Release.single 100]⟩
    rfl rfl (by decide)⟩

/-- C3: on a live handle, `operator*` and `operator->` of both specializations and
`operator[]` of the array specialization, at any index, end in the exception exactly
when the pointer of the handle is null; none of them changes the world (the handle and
the counter stay as they were, also on failure); on a non-null handle `operator*`
refers to the object at the pointer, so reading through it gives the stored value. -/
theorem null_dereference_iff_null {T : Type} (w : World T) (wa : World (List T))
    (h ha : HandleId) (pointer pa : Ptr) (index : Int)
    (hlive : findHandle w.handles h = some pointer)
    (halive : findHandle wa.handles ha = some pa) :
    (∃ r, SmartPointer.operator_star w h = some (r, w) ∧
      ((∃ e, r = Except.error e) ↔ pointer = none) ∧
      (∀ a, pointer = some a → r = Except.ok a ∧
        SmartPointer.read w r = World.load w.heap a)) ∧
    (∃ r, SmartPointer.operator_arrow w h = some (r, w) ∧
      ((∃ e, r = Except.error e) ↔ pointer = none) ∧
      (∀ a, pointer = some a → r = Except.ok a)) ∧
    (∃ r, SmartPointerArray.operator_star wa ha = some (r, wa) ∧
      ((∃ e, r = Except.error e) ↔ pa = none) ∧
      (∀ a, pa = some a → r = Except.ok (a, 0))) ∧
    (∃ r, SmartPointerArray.operator_arrow wa ha = some (r, wa) ∧
      ((∃ e, r = Except.error e) ↔ pa = none) ∧
      (∀ a, pa = some a → r = Except.ok a)) ∧
    (∃ r, SmartPointerArray.operator_index wa ha index = some (r, wa) ∧
      ((∃ e, r = Except.error e) ↔ pa = none) ∧
      (∀ a, pa = some a → r = Except.ok (a, index))) := by
  refine ⟨?_, ?_, ?_, ?_, ?_⟩
  · cases pointer with
    | none =>
      exact ⟨Except.error ⟨"Неверный указатель"⟩, by simp [SmartPointer.operator_star, hlive],
        by simp, by simp⟩
    | some a =>
      exact ⟨Except.ok a, by simp [SmartPointer.operator_star, hlive], by simp,
        by simp [SmartPointer.read]⟩
  · cases pointer with
    | none =>
      exact ⟨Except.error ⟨"Неверный указатель"⟩, by simp [SmartPointer.operator_arrow, hlive],
        by simp, by simp⟩
    | some a =>
      exact ⟨Except.ok a, by simp [SmartPointer.operator_arrow, hlive], by simp, by simp⟩
  · cases pa with
    | none =>
      exact ⟨Except.error ⟨"Неверный указатель"⟩,
        by simp [SmartPointerArray.operator_star, halive], by simp, by simp⟩
    | some a =>
      exact ⟨Except.ok (a, 0), by simp [SmartPointerArray.operator_star, halive], by simp,
        by simp⟩
  · cases pa with
    | none =>
      exact ⟨Except.error ⟨"Неверный указатель"⟩,
        by simp [SmartPointerArray.operator_arrow, halive], by simp, by simp⟩
    | some a =>
      exact ⟨Except.ok a, by simp [SmartPointerArray.operator_arrow, halive], by simp,
        by simp⟩
  · cases pa with
    | none =>
      exact ⟨Except.error ⟨"Неверный указатель"⟩,
        by simp [SmartPointerArray.operator_index, halive], by simp, by simp⟩
    | some a =>
      exact ⟨Except.ok (a, index), by simp [SmartPointerArray.operator_index, halive],
        by simp, by simp⟩

theorem null_dereference_iff_null_witness :
    findHandle (⟨[(0, none), (1, some 100)], 1, [(100, 42)], []⟩ : World Int).handles 0
      = some none ∧
    findHandle (⟨[(5, some 300)], 1, [(300, [4, 5, 6])], []⟩ : World (List Int)).handles 5
      = some (some 300) ∧
    ((∃ r, SmartPointer.operator_star
          (⟨[(0, none), (1, some 100)], 1, [(100, 42)], []⟩ : World Int) 0
        = some (r, ⟨[(0, none), (1, some 100)], 1, [(100, 42)], []⟩) ∧
      ((∃ e, r = Except.error e) ↔ (none : Ptr) = none) ∧
      (∀ a, (none : Ptr) = some a → r = Except.ok a ∧
        SmartPointer.read (⟨[(0, none), (1, some 100)], 1, [(100, 42)], []⟩ : World Int) r
          = World.load [(100, (42 : Int))] a)) ∧
    (∃ r, SmartPointer.operator_arrow
          (⟨[(0, none), (1, some 100)], 1, [(100, 42)], []⟩ : World Int) 0
        = some (r, ⟨[(0, none), (1, some 100)], 1, [(100, 42)], []⟩) ∧
      ((∃ e, r = Except.error e) ↔ (none : Ptr) = none) ∧
      (∀ a, (none : Ptr) = some a → r = Except.ok a)) ∧
    (∃ r, SmartPointerArray.operator_star
          (⟨[(5, some 300)], 1, [(300, [4, 5, 6])], []⟩ : World (List Int)) 5
        = some (r, ⟨[(5, some 300)], 1, [(300, [4, 5, 6])], []⟩) ∧
      ((∃ e, r = Except.error e) ↔ (some 300 : Ptr) = none) ∧
      (∀ a, (some 300 : Ptr) = some a → r = Except.ok (a, 0))) ∧
    (∃ r, SmartPointerArray.operator_arrow
          (⟨[(5, some 300)], 1, [(300, [4, 5, 6])], []⟩ : World (List Int)) 5
        = some (r, ⟨[(5, some 300)], 1, [(300, [4, 5, 6])], []⟩) ∧
      ((∃ e, r = Except.error e) ↔ (some 300 : Ptr) = none) ∧
      (∀ a, (some 300 : Ptr) = some a → r = Except.ok a)) ∧
    (∃ r, SmartPointerArray.operator_index
          (⟨[(5, some 300)], 1, [(300, [4, 5, 6])], []⟩ : World (List Int)) 5 7
        = some (r, ⟨[(5, some 300)], 1, [(300, [4, 5, 6])], []⟩) ∧
      ((∃ e, r = Except.error e) ↔ (some 300 : Ptr) = none) ∧
      (∀ a, (some 300 : Ptr) = some a → r = Except.ok (a, 7)))) :=
  ⟨rfl, rfl, null_dereference_iff_null
    (⟨[(0, none), (1, some 100)], 1, [(100, 42)], []⟩ : World Int)
    (⟨[(5, some 300)], 1, [(300, [4, 5, 6])], []⟩ : World (List Int)) 0 5 none (some 300) 7
    rfl rfl⟩

/-- C4: copy-constructing the new handle `this` from a live non-null handle `other`
gives `this` the pointer of `other`, leaves the free store and the log of deletions as
they were (nothing allocated, nothing released), leaves `other` and every other handle
unchanged, and raises the counter by exactly one. -/
theorem SmartPointer.copy_construct_binds_same_allocation {T : Type} (w : World T)
    (this other : HandleId) (a : Addr)
    (hfresh : findHandle w.handles this = none)
    (hother : findHandle w.handles other = some (some a)) :
    ∃ w1, SmartPointer.copy_construct w this other = some w1 ∧
      findHandle w1.handles this = some (some a) ∧
      findHandle w1.handles other = some (some a) ∧
      (∀ k, k ≠ this → findHandle w1.handles k = findHandle w.handles k) ∧
      w1.heap = w.heap ∧ w1.released = w.released ∧
      SmartPointer.get_reference_count w1 = SmartPointer.get_reference_count w + 1 := by
  have hne : this ≠ other := by
    intro hc
    rw [hc, hother] at hfresh
    simp at hfresh
  refine ⟨_, SmartPointer.copy_construct_eq w this other (some a) hfresh hother, ?_, ?_, ?_,
    rfl, rfl, ?_⟩
  · simp [findHandle]
  · simp [findHandle, hne, hother]
  · intro k hk
    simp [findHandle, Ne.symm hk]
  · simp [SmartPointer.get_reference_count]

theorem SmartPointer.copy_construct_binds_same_allocation_witness :
    findHandle (⟨[(0, some 100)], 1, [(100, 42)], []⟩ : World Int).handles 1 = none ∧
    findHandle (⟨[(0, some 100)], 1, [(100, 42)], []⟩ : World Int).handles 0
      = some (some 100) ∧
    (∃ w1, SmartPointer.copy_construct (⟨[(0, some 100)], 1, [(100, 42)], []⟩ : World Int) 1 0
        = some w1 ∧
      findHandle w1.handles 1 = some (some 100) ∧
      findHandle w1.handles 0 = some (some 100) ∧
      (∀ k, k ≠ 1 → findHandle w1.handles k = findHandle [(0, some 100)] k) ∧
      w1.heap = [(100, 42)] ∧ w1.released = [] ∧
      SmartPointer.get_reference_count w1
        = SmartPointer.get_reference_count
            (⟨[(0, some 100)], 1, [(100, 42)], []⟩ : World Int) + 1) :=
  ⟨rfl, rfl, SmartPointer.copy_construct_binds_same_allocation
    (⟨[(0, some 100)], 1, [(100, 42)], []⟩ : World Int) 1 0 100 rfl rfl⟩

/-- C5, as stated for every pair of distinct handles, fails: in `head = head->next`, with
`head` (handle 0) the only handle on the node at 100 and `next` (handle 1, null) stored
inside that node, the decrement brings the counter to zero, `delete pointer` destroys
the node and `next` with it, and `other.pointer` is read afterwards: the assignment has
no defined result, so `next` is not left unchanged. -/
theorem SmartPointer.assign_destroys_stored_handle :
    ¬ (∀ (home : HandleId → Option Addr) (w : World Int) (this other : HandleId) (p q : Ptr),
        this ≠ other → findHandle w.handles this = some p →
        findHandle w.handles other = some q →
        ∃ w1, SmartPointer.assign home w this other = some w1 ∧
          findHandle w1.handles other = some q ∧ findHandle w1.handles this = some q) := by
  intro hall
  obtain ⟨w1, h1, _⟩ := hall (fun k => if k = 1 then some 100 else none)
    ⟨[(0, some 100), (1, none)], 1, [(100, 42)], []⟩ 0 1 (some 100) none (by decide) rfl rfl
  have hnone : SmartPointer.assign (fun k => if k = 1 then some 100 else none)
      (⟨[(0, some 100), (1, none)], 1, [(100, 42)], []⟩ : World Int) 0 1 = none :=
    SmartPointer.assign_undefined _ _ 0 1 100 none (by decide) rfl rfl (by decide) rfl
  rw [hnone] at h1
  cases h1

/-- C5, amended: for two distinct live handles such that neither of them is stored inside
an object that the assignment releases, `this = other` leaves `other` unchanged (and
every handle but `this` that is not stored inside a released object), gives `this` the
pointer of `other`, and deletes the previous target of `this` exactly when `this` was
non-null and the decrement brought the counter to zero; nothing else is deleted. The
counter changes by `-1` if `this` was non-null plus `+1` if `other` is non-null, and by
a further `-1` for each non-null handle stored inside a released target, of which there
is none when the handles stored inside it are null. -/
theorem SmartPointer.assign_distinct {T : Type} (home : HandleId → Option Addr)
    (w : World T) (this other : HandleId)
    (p q : Ptr) (hne : this ≠ other)
    (hthis : findHandle w.handles this = some p)
    (hother : findHandle w.handles other = some q)
    (hplace : ∀ a, p = some a → w.reference_count - 1 = 0 →
      home this ≠ some a ∧ home other ≠ some a) :
    ∃ w1, SmartPointer.assign home w this other = some w1 ∧
      findHandle w1.handles other = some q ∧
      findHandle w1.handles this = some q ∧
      (∀ k, k ≠ this → (∀ a, p = some a → w.reference_count - 1 = 0 → home k ≠ some a) →
        findHandle w1.handles k = findHandle w.handles k) ∧
      (∀ a, p = some a → w.reference_count - 1 = 0 →
        w1.released = Release.single a :: w.released ∧
        w1.heap = w.heap.filter (fun c => c.1 != a) ∧
        w1.reference_count = w.reference_count - 1 + (if q.isSome then 1 else 0)
          - liveNonNull (w.handles.filter (fun e => home e.1 == some a)) ∧
        ((∀ e ∈ w.handles, home e.1 = some a → e.2 = none) →
          w1.reference_count = w.reference_count - 1 + (if q.isSome then 1 else 0))) ∧
      (¬ (p.isSome = true ∧ w.reference_count - 1 = 0) →
        w1.released = w.released ∧ w1.heap = w.heap ∧
        w1.reference_count = w.reference_count - (if p.isSome then 1 else 0)
          + (if q.isSome then 1 else 0)) := by
  by_cases hrel : p.isSome = true ∧ w.reference_count - 1 = 0
  · obtain ⟨hp, hc⟩ := hrel
    obtain ⟨a, rfl⟩ := Option.isSome_iff_exists.mp hp
    obtain ⟨hth, hot⟩ := hplace a rfl hc
    have hfthis := findHandle_filter_outside home w.handles a this hth
    have hfother := findHandle_filter_outside home w.handles a other hot
    rw [hthis] at hfthis
    rw [hother] at hfother
    refine ⟨_, SmartPointer.assign_with_release home w this other a q hne hthis hother hc
      hth hot, ?_, ?_, ?_, ?_, ?_⟩
    · show findHandle (setHandle _ this q) other = some q
      rw [findHandle_setHandle_ne _ this other q hne]
      exact hfother
    · exact findHandle_setHandle_self _ this (some a) q hfthis
    · intro k hk hout
      show findHandle (setHandle _ this q) k = findHandle w.handles k
      rw [findHandle_setHandle_ne _ this k q (Ne.symm hk)]
      exact findHandle_filter_outside home w.handles a k (hout a rfl hc)
    · intro b hb _
      injection hb with hb
      subst hb
      refine ⟨rfl, rfl, ?_, ?_⟩
      · show w.reference_count - 1 - _ + _ = w.reference_count - 1 + _ - _
        omega
      · intro hnull
        have hz : liveNonNull (w.handles.filter (fun e => home e.1 == some a)) = 0 :=
          liveNonNull_filter_null _ _ (fun e he hf => hnull e he (by simpa using hf))
        show w.reference_count - 1 - _ + _ = w.reference_count - 1 + _
        rw [hz]
        omega
    · intro hcontra
      exact absurd ⟨hp, hc⟩ hcontra
  · have hset := findHandle_setHandle_self w.handles this p q hthis
    refine ⟨_, SmartPointer.assign_without_release home w this other p q hne hthis hother
      hrel, ?_, hset, ?_, ?_, ?_⟩
    · show findHandle (setHandle w.handles this q) other = some q
      rw [findHandle_setHandle_ne w.handles this other q hne]
      exact hother
    · intro k hk _
      exact findHandle_setHandle_ne w.handles this k q (Ne.symm hk)
    · intro a hp hc
      exact absurd ⟨by rw [hp]; rfl, hc⟩ hrel
    · intro _
      exact ⟨rfl, rfl, rfl⟩

theorem SmartPointer.assign_distinct_witness :
    (0 : HandleId) ≠ 1 ∧
    findHandle (⟨[(0, some 100), (1, none)], 1, [(100, 42), (200, 7)], []⟩ :
      World Int).handles 0 = some (some 100) ∧
    findHandle (⟨[(0, some 100), (1, none)], 1, [(100, 42), (200, 7)], []⟩ :
      World Int).handles 1 = some none ∧
    (∀ a, (some 100 : Ptr) = some a → (1 : Int) - 1 = 0 →
      (fun k => if k = 1 then some 200 else none : HandleId → Option Addr) 0 ≠ some a ∧
      (fun k => if k = 1 then some 200 else none : HandleId → Option Addr) 1 ≠ some a) ∧
    (∃ w1, SmartPointer.assign (fun k => if k = 1 then some 200 else none)
          (⟨[(0, some 100), (1, none)], 1, [(100, 42), (200, 7)], []⟩ : World Int) 0 1
        = some w1 ∧
      findHandle w1.handles 1 = some none ∧
      findHandle w1.handles 0 = some none ∧
      (∀ k, k ≠ 0 →
        (∀ a, (some 100 : Ptr) = some a → (1 : Int) - 1 = 0 →
          (fun k => if k = 1 then some 200 else none : HandleId → Option Addr) k ≠ some a) →
        findHandle w1.handles k = findHandle [(0, some 100), (1, none)] k) ∧
      (∀ a, (some 100 : Ptr) = some a → (1 : Int) - 1 = 0 →
        w1.released = Release.single a :: [] ∧
        w1.heap = [(100, (42 : Int)), (200, 7)].filter (fun c => c.1 != a) ∧
        w1.reference_count = (1 : Int) - 1 + (if (none : Ptr).isSome then 1 else 0)
          - liveNonNull (([(0, some 100), (1, none)] : List (HandleId × Ptr)).filter
              (fun e => (fun k => if k = 1 then some 200 else none :
                HandleId → Option Addr) e.1 == some a)) ∧
        ((∀ e ∈ ([(0, some 100), (1, none)] : List (HandleId × Ptr)),
            (fun k => if k = 1 then some 200 else none : HandleId → Option Addr) e.1
              = some a → e.2 = none) →
          w1.reference_count = (1 : Int) - 1 + (if (none : Ptr).isSome then 1 else 0))) ∧
      (¬ ((some 100 : Ptr).isSome = true ∧ (1 : Int) - 1 = 0) →
        w1.released = [] ∧ w1.heap = [(100, 42), (200, 7)] ∧
        w1.reference_count = (1 : Int) - (if (some 100 : Ptr).isSome then 1 else 0)
          + (if (none : Ptr).isSome then 1 else 0))) :=
  ⟨by decide, rfl, rfl,
    fun a ha _ => by
      injection ha with ha
      subst ha
      decide,
    SmartPointer.assign_distinct (fun k => if k = 1 then some 200 else none)
      (⟨[(0, some 100), (1, none)], 1, [(100, 42), (200, 7)], []⟩ : World Int) 0 1
      (some 100) none (by decide) rfl rfl
      (fun a ha _ => by
        injection ha with ha
        subst ha
        decide)⟩

/-- C6: assigning a live handle to itself, null or not, whatever the counter and wherever
the handle object is stored, is a no-op: the world (pointers, counter, free store, log of
deletions) is returned as is. -/
theorem SmartPointer.self_assignment_is_noop {T : Type} (home : HandleId → Option Addr)
    (w : World T) (this : HandleId)
    (p : Ptr) (hthis : findHandle w.handles this = some p) :
    SmartPointer.assign home w this this = some w :=
  SmartPointer.assign_self_anywhere home w this p hthis

theorem SmartPointer.self_assignment_is_noop_witness :
    findHandle (⟨[(0, some 100)], 1, [(100, 42)], []⟩ : World Int).handles 0
      = some (some 100) ∧
    SmartPointer.assign (fun _ => some 100)
        (⟨[(0, some 100)], 1, [(100, 42)], []⟩ : World Int) 0 0
      = some ⟨[(0, some 100)], 1, [(100, 42)], []⟩ :=
  ⟨rfl, SmartPointer.self_assignment_is_noop (fun _ => some 100)
    (⟨[(0, some 100)], 1, [(100, 42)], []⟩ : World Int) 0 (some 100) rfl⟩

/-- C7: from no handles and `reference_count = 0`, for every value `v` stored by
`new T(v)` at an address `a`: constructing `A` over `a` gives count 1; copy-constructing
`B` from `A` gives count 2; destroying `B` gives count 1 and deletes nothing;
dereferencing `A` then reads `v`; destroying `A` gives count 0 and deletes `a`. -/
theorem SmartPointer.count_scenario {T : Type} (heap : List (Addr × T)) (a : Addr) (v : T)
    (A B : HandleId) (hAB : A ≠ B) :
    ∃ w1 w2 w3 w4 r,
      SmartPointer.construct ((World.init heap).new_object a v) A (some a) = some w1 ∧
      SmartPointer.get_reference_count w1 = 1 ∧
      SmartPointer.copy_construct w1 B A = some w2 ∧
      SmartPointer.get_reference_count w2 = 2 ∧
      SmartPointer.destroy w2 B = some w3 ∧
      SmartPointer.get_reference_count w3 = 1 ∧
      w3.released = [] ∧ w3.allocated a = true ∧
      SmartPointer.operator_star w3 A = some (r, w3) ∧
      SmartPointer.read w3 r = some v ∧
      SmartPointer.destroy w3 A = some w4 ∧
      SmartPointer.get_reference_count w4 = 0 ∧
      w4.released = [Release.single a] ∧ w4.allocated a = false ∧ w4.handles = [] := by
  have hBA : B ≠ A := Ne.symm hAB
  refine ⟨⟨[(A, some a)], 1, (a, v) :: heap, []⟩,
    ⟨[(B, some a), (A, some a)], 2, (a, v) :: heap, []⟩,
    ⟨[(A, some a)], 1, (a, v) :: heap, []⟩,
    ⟨[], 0, ((a, v) :: heap).filter (fun c => c.1 != a), [Release.single a]⟩,
    Except.ok a, ?_, rfl, ?_, rfl, ?_, rfl, rfl, ?_, ?_, ?_, ?_, rfl, rfl, ?_, rfl⟩
  · simp [SmartPointer.construct, World.init, World.new_object, findHandle]
  · simp [SmartPointer.copy_construct, findHandle, hAB]
  · simp [SmartPointer.destroy, findHandle, eraseHandle]
  · simp [World.allocated, World.load]
  · simp [SmartPointer.operator_star, findHandle]
  · simp [SmartPointer.read, World.load]
  · simp [SmartPointer.destroy, findHandle, eraseHandle, World.delete_single]
  · simp only [World.allocated, load_filter_self, Option.isSome_none]

theorem SmartPointer.count_scenario_witness :
    (0 : HandleId) ≠ 1 ∧
    (∃ w1 w2 w3 w4 r,
      SmartPointer.construct ((World.init ([] : List (Addr × Int))).new_object 100 42) 0
        (some 100) = some w1 ∧
      SmartPointer.get_reference_count w1 = 1 ∧
      SmartPointer.copy_construct w1 1 0 = some w2 ∧
      SmartPointer.get_reference_count w2 = 2 ∧
      SmartPointer.destroy w2 1 = some w3 ∧
      SmartPointer.get_reference_count w3 = 1 ∧
      w3.released = [] ∧ w3.allocated 100 = true ∧
      SmartPointer.operator_star w3 0 = some (r, w3) ∧
      SmartPointer.read w3 r = some 42 ∧
      SmartPointer.destroy w3 0 = some w4 ∧
      SmartPointer.get_reference_count w4 = 0 ∧
      w4.released = [Release.single 100] ∧ w4.allocated 100 = false ∧ w4.handles = []) :=
  ⟨by decide, SmartPointer.count_scenario ([] : List (Addr × Int)) 100 42 0 1 (by decide)⟩

/-- C8, as stated, fails: with one non-null handle alive (a state the program
`SmartPointer<int> h0(new int(42));` reaches), constructing a second handle over another
allocation leaves the counter at 2, not at 1. -/
theorem SmartPointer.construct_count_not_always_one :
    ¬ (∀ (ops : List Op) (w w1 : World Int) (this : HandleId) (a : Addr),
        SmartPointer.run (World.init [(100, 42), (200, 7)]) ops = some w →
        SmartPointer.construct w this (some a) = some w1 →
        SmartPointer.get_reference_count w1 = 1) := by
  intro hall
  have h := hall [Op.construct 0 (some 100)] ⟨[(0, some 100)], 1, [(100, 42), (200, 7)], []⟩
    ⟨[(1, some 200), (0, some 100)], 2, [(100, 42), (200, 7)], []⟩ 1 200 rfl rfl
  simp [SmartPointer.get_reference_count] at h

/-- C8, amended: constructing a handle from a raw pointer raises the one counter of the
specialization by one when the pointer is non-null, so the counter is 1 afterwards
exactly when it was 0 before, and leaves the counter unchanged when the pointer is null;
the new handle holds the pointer, and nothing is allocated or deleted. -/
theorem SmartPointer.construct_raises_shared_count {T : Type} (w : World T) (this : HandleId)
    (p : Ptr) (hfresh : findHandle w.handles this = none) :
    ∃ w1, SmartPointer.construct w this p = some w1 ∧
      findHandle w1.handles this = some p ∧
      w1.heap = w.heap ∧ w1.released = w.released ∧
      (p ≠ none →
        SmartPointer.get_reference_count w1 = SmartPointer.get_reference_count w + 1) ∧
      (p ≠ none →
        (SmartPointer.get_reference_count w1 = 1 ↔ SmartPointer.get_reference_count w = 0)) ∧
      (p = none →
        SmartPointer.get_reference_count w1 = SmartPointer.get_reference_count w) := by
  refine ⟨_, SmartPointer.construct_eq w this p hfresh, ?_, rfl, rfl, ?_, ?_, ?_⟩
  · simp [findHandle]
  · intro hp
    cases p with
    | none => exact absurd rfl hp
    | some a => simp [SmartPointer.get_reference_count]
  · intro hp
    cases p with
    | none => exact absurd rfl hp
    | some a =>
      simp only [SmartPointer.get_reference_count, Option.isSome_some, if_true]
      constructor <;> intro h <;> omega
  · intro hp
    subst hp
    simp [SmartPointer.get_reference_count]

theorem SmartPointer.construct_raises_shared_count_witness :
    findHandle (⟨[(0, some 100)], 1, [(100, 42), (200, 7)], []⟩ : World Int).handles 1
      = none ∧
    (∃ w1, SmartPointer.construct
          (⟨[(0, some 100)], 1, [(100, 42), (200, 7)], []⟩ : World Int) 1 (some 200)
        = some w1 ∧
      findHandle w1.handles 1 = some (some 200) ∧
      w1.heap = [(100, 42), (200, 7)] ∧ w1.released = [] ∧
      ((some 200 : Ptr) ≠ none →
        SmartPointer.get_reference_count w1 = SmartPointer.get_reference_count
          (⟨[(0, some 100)], 1, [(100, 42), (200, 7)], []⟩ : World Int) + 1) ∧
      ((some 200 : Ptr) ≠ none →
        (SmartPointer.get_reference_count w1 = 1 ↔ SmartPointer.get_reference_count
          (⟨[(0, some 100)], 1, [(100, 42), (200, 7)], []⟩ : World Int) = 0)) ∧
      ((some 200 : Ptr) = none →
        SmartPointer.get_reference_count w1 = SmartPointer.get_reference_count
          (⟨[(0, some 100)], 1, [(100, 42), (200, 7)], []⟩ : World Int))) :=
  ⟨rfl, SmartPointer.construct_raises_shared_count
    (⟨[(0, some 100)], 1, [(100, 42), (200, 7)], []⟩ : World Int) 1 (some 200) rfl⟩

/-- C9: for two distinct allocations `X` and `Y` of one element type, from no handles and
`reference_count = 0`: after constructing `hx` over `X` and `hy` over `Y` the count is 2;
destroying `hx`, the only handle on `X`, brings the count to 1 and deletes nothing;
destroying `hy` then brings the count to 0 and deletes `Y` only, so `X` is never deleted
and is still in the free store when no handle is left. -/
theorem SmartPointer.independent_handles_share_counter {T : Type} (heap : List (Addr × T))
    (X Y : Addr) (hx hy : HandleId) (hXY : X ≠ Y) (hh : hx ≠ hy) :
    ∃ w1 w2 w3 w4,
      SmartPointer.construct (World.init heap) hx (some X) = some w1 ∧
      SmartPointer.construct w1 hy (some Y) = some w2 ∧
      SmartPointer.get_reference_count w2 = 2 ∧
      SmartPointer.destroy w2 hx = some w3 ∧
      SmartPointer.get_reference_count w3 = 1 ∧
      w3.released = [] ∧ w3.heap = heap ∧
      findHandle w3.handles hy = some (some Y) ∧
      SmartPointer.destroy w3 hy = some w4 ∧
      SmartPointer.get_reference_count w4 = 0 ∧
      w4.released = [Release.single Y] ∧
      Release.single X ∉ w4.released ∧
      World.load w4.heap X = World.load heap X ∧ w4.handles = [] := by
  have hh2 : hy ≠ hx := Ne.symm hh
  refine ⟨⟨[(hx, some X)], 1, heap, []⟩, ⟨[(hy, some Y), (hx, some X)], 2, heap, []⟩,
    ⟨[(hy, some Y)], 1, heap, []⟩,
    ⟨[], 0, heap.filter (fun c => c.1 != Y), [Release.single Y]⟩,
    ?_, ?_, rfl, ?_, rfl, rfl, rfl, ?_, ?_, rfl, rfl, ?_, ?_, rfl⟩
  · simp [SmartPointer.construct, World.init, findHandle]
  · simp [SmartPointer.construct, findHandle, hh]
  · simp [SmartPointer.destroy, findHandle, eraseHandle, hh2]
  · simp [findHandle]
  · simp [SmartPointer.destroy, findHandle, eraseHandle, World.delete_single]
  · simp [hXY]
  · exact load_filter_ne heap Y X hXY

theorem SmartPointer.independent_handles_share_counter_witness :
    (100 : Addr) ≠ 200 ∧ (0 : HandleId) ≠ 1 ∧
    (∃ w1 w2 w3 w4,
      SmartPointer.construct (World.init [(100, (42 : Int)), (200, 7)]) 0 (some 100)
        = some w1 ∧
      SmartPointer.construct w1 1 (some 200) = some w2 ∧
      SmartPointer.get_reference_count w2 = 2 ∧
      SmartPointer.destroy w2 0 = some w3 ∧
      SmartPointer.get_reference_count w3 = 1 ∧
      w3.released = [] ∧ w3.heap = [(100, 42), (200, 7)] ∧
      findHandle w3.handles 1 = some (some 200) ∧
      SmartPointer.destroy w3 1 = some w4 ∧
      SmartPointer.get_reference_count w4 = 0 ∧
      w4.released = [Release.single 200] ∧
      Release.single 100 ∉ w4.released ∧
      World.load w4.heap 100 = World.load [(100, (42 : Int)), (200, 7)] 100 ∧
      w4.handles = []) :=
  ⟨by decide, by decide, SmartPointer.independent_handles_share_counter
    [(100, (42 : Int)), (200, 7)] 100 200 0 1 (by decide) (by decide)⟩

theorem load_store_self {β : Type} (heap : List (Addr × β)) (a : Addr) (x v : β)
    (hx : World.load heap a = some x) : World.load (World.store heap a v) a = some v := by
  induction heap with
  | nil => simp [World.load] at hx
  | cons c rest ih =>
    obtain ⟨k, y⟩ := c
    by_cases hk : k = a
    · simp [World.store, World.load, hk]
    · simp [World.load, hk] at hx
      simp [World.store, World.load, hk, ih hx]

theorem load_store_ne {β : Type} (heap : List (Addr × β)) (a b : Addr) (v : β)
    (hne : b ≠ a) : World.load (World.store heap a v) b = World.load heap b := by
  induction heap with
  | nil => rfl
  | cons c rest ih =>
    obtain ⟨k, y⟩ := c
    by_cases hk : k = a
    · subst hk
      simp [World.store, World.load, Ne.symm hne]
    · by_cases hkb : k = b
      · subst hkb
        simp [World.store, World.load, hk]
      · simp [World.store, World.load, hk, hkb, ih]

/-- C11: for a live non-null handle `h` of the array specialization over an array
`block` at `a`, an index `i` inside the array and a value `v`: `h[i]` refers to element
`i`, the store `h[i] = v` succeeds and changes neither the handles, the counter nor the
log of deletions; afterwards index `i` read through `h`, through any live handle with
the same pointer, and through any copy of `h` made afterwards gives `v`, and every
other index `j` inside the array reads what it read before. -/
theorem SmartPointerArray.index_write_then_read {T : Type} (w : World (List T))
    (h : HandleId) (a : Addr) (block : List T) (i : Int) (v : T)
    (hlive : findHandle w.handles h = some (some a))
    (hblock : World.load w.heap a = some block)
    (hlo : 0 ≤ i) (hhi : i < block.length) :
    ∃ w1, SmartPointerArray.operator_index w h i = some (Except.ok (a, i), w) ∧
      SmartPointerArray.write w (Except.ok (a, i)) v = some w1 ∧
      w1.handles = w.handles ∧ w1.reference_count = w.reference_count ∧
      w1.released = w.released ∧
      (∀ k, findHandle w.handles k = some (some a) →
        ∃ r, SmartPointerArray.operator_index w1 k i = some (r, w1) ∧
          SmartPointerArray.read w1 r = some v) ∧
      (∀ c w2, SmartPointerArray.copy_construct w1 c h = some w2 →
        ∃ r, SmartPointerArray.operator_index w2 c i = some (r, w2) ∧
          SmartPointerArray.read w2 r = some v) ∧
      (∀ j : Int, 0 ≤ j → j < block.length → j ≠ i →
        ∀ k, findHandle w.handles k = some (some a) →
          ∃ r, SmartPointerArray.operator_index w1 k j = some (r, w1) ∧
            SmartPointerArray.read w1 r = block.get? j.toNat ∧
            SmartPointerArray.read w (Except.ok (a, j)) = block.get? j.toNat) := by
  have hin : i.toNat < block.length := by omega
  have hload : World.load (World.store w.heap a (block.set i.toNat v)) a
      = some (block.set i.toNat v) := load_store_self w.heap a block _ hblock
  refine ⟨{ w with heap := World.store w.heap a (block.set i.toNat v) }, ?_, ?_, rfl, rfl,
    rfl, ?_, ?_, ?_⟩
  · simp [SmartPointerArray.operator_index, hlive]
  · simp [SmartPointerArray.write, hblock, hlo, hin]
  · intro k hk
    refine ⟨Except.ok (a, i), by simp [SmartPointerArray.operator_index, hk], ?_⟩
    simp [SmartPointerArray.read, hload, hlo, hin]
  · intro c w2 hcopy
    unfold SmartPointerArray.copy_construct at hcopy
    simp only [hlive] at hcopy
    cases hc : findHandle w.handles c with
    | some x => rw [hc] at hcopy; simp at hcopy
    | none =>
      rw [hc] at hcopy
      simp only [Option.isSome_some, if_true] at hcopy
      injection hcopy with hcopy
      subst hcopy
      refine ⟨Except.ok (a, i), by simp [SmartPointerArray.operator_index, findHandle], ?_⟩
      simp [SmartPointerArray.read, hload, hlo, hin]
  · intro j hj0 hj1 hji k hk
    have hne : i.toNat ≠ j.toNat := by omega
    refine ⟨Except.ok (a, j), by simp [SmartPointerArray.operator_index, hk], ?_, ?_⟩
    · simp [SmartPointerArray.read, hload, hj0, List.getElem?_set_ne hne]
    · simp [SmartPointerArray.read, hblock, hj0]

theorem SmartPointerArray.index_write_then_read_witness :
    findHandle (⟨[(0, some 300)], 1, [(300, [9, 9, 9, 9, 9])], []⟩ :
      World (List Int)).handles 0 = some (some 300) ∧
    World.load (⟨[(0, some 300)], 1, [(300, [9, 9, 9, 9, 9])], []⟩ :
      World (List Int)).heap 300 = some [9, 9, 9, 9, 9] ∧
    (0 : Int) ≤ 3 ∧ (3 : Int) < ([9, 9, 9, 9, 9] : List Int).length ∧
    (∃ w1, SmartPointerArray.operator_index
          (⟨[(0, some 300)], 1, [(300, [9, 9, 9, 9, 9])], []⟩ : World (List Int)) 0 3
        = some (Except.ok (300, 3), ⟨[(0, some 300)], 1, [(300, [9, 9, 9, 9, 9])], []⟩) ∧
      SmartPointerArray.write
          (⟨[(0, some 300)], 1, [(300, [9, 9, 9, 9, 9])], []⟩ : World (List Int))
          (Except.ok (300, 3)) 3 = some w1 ∧
      w1.handles = [(0, some 300)] ∧ w1.reference_count = 1 ∧ w1.released = [] ∧
      (∀ k, findHandle [(0, some 300)] k = some (some 300) →
        ∃ r, SmartPointerArray.operator_index w1 k 3 = some (r, w1) ∧
          SmartPointerArray.read w1 r = some 3) ∧
      (∀ c w2, SmartPointerArray.copy_construct w1 c 0 = some w2 →
        ∃ r, SmartPointerArray.operator_index w2 c 3 = some (r, w2) ∧
          SmartPointerArray.read w2 r = some 3) ∧
      (∀ j : Int, 0 ≤ j → j < ([9, 9, 9, 9, 9] : List Int).length → j ≠ 3 →
        ∀ k, findHandle [(0, some 300)] k = some (some 300) →
          ∃ r, SmartPointerArray.operator_index w1 k j = some (r, w1) ∧
            SmartPointerArray.read w1 r = ([9, 9, 9, 9, 9] : List Int).get? j.toNat ∧
            SmartPointerArray.read
              (⟨[(0, some 300)], 1, [(300, [9, 9, 9, 9, 9])], []⟩ : World (List Int))
              (Except.ok (300, j)) = ([9, 9, 9, 9, 9] : List Int).get? j.toNat)) :=
  ⟨rfl, rfl, by decide, by decide, SmartPointerArray.index_write_then_read
    (⟨[(0, some 300)], 1, [(300, [9, 9, 9, 9, 9])], []⟩ : World (List Int)) 0 300
    [9, 9, 9, 9, 9] 3 3 rfl rfl (by decide) (by decide)⟩

/-- The loop of `main`: `array_pointer[i] = i` for `i = 0 .. 4` over `new int[5]`
(whatever the array held), after which the array reads `0 1 2 3 4`. -/
theorem SmartPointerArray.main_array_scenario (x0 x1 x2 x3 x4 : Int) :
    ∃ w0 w1 w2 w3 w4 w5,
      SmartPointerArray.construct (World.init [(300, [x0, x1, x2, x3, x4])]) 0 (some 300)
        = some w0 ∧
      SmartPointerArray.write w0 (Except.ok (300, 0)) 0 = some w1 ∧
      SmartPointerArray.write w1 (Except.ok (300, 1)) 1 = some w2 ∧
      SmartPointerArray.write w2 (Except.ok (300, 2)) 2 = some w3 ∧
      SmartPointerArray.write w3 (Except.ok (300, 3)) 3 = some w4 ∧
      SmartPointerArray.write w4 (Except.ok (300, 4)) 4 = some w5 ∧
      SmartPointerArray.read w5 (Except.ok (300, 0)) = some 0 ∧
      SmartPointerArray.read w5 (Except.ok (300, 1)) = some 1 ∧
      SmartPointerArray.read w5 (Except.ok (300, 2)) = some 2 ∧
      SmartPointerArray.read w5 (Except.ok (300, 3)) = some 3 ∧
      SmartPointerArray.read w5 (Except.ok (300, 4)) = some 4 :=
  ⟨_, _, _, _, _, _, rfl, rfl, rfl, rfl, rfl, rfl, rfl, rfl, rfl, rfl, rfl⟩

/-! ## The two specializations side by side -/

theorem array_assign_outside {T : Type} (w : World (List T)) (this other : HandleId) :
    SmartPointerArray.assign (fun _ => none) w this other =
      match findHandle w.handles this, findHandle w.handles other with
      | some pointer, some other_pointer =>
        if this ≠ other then
          let w1 : World (List T) :=
            match pointer with
            | some a =>
              let w0 : World (List T) := { w with reference_count := w.reference_count - 1 }
              if w0.reference_count = 0 then w0.delete_array a else w0
            | none => w
          let w2 : World (List T) :=
            { w1 with handles := setHandle w1.handles this other_pointer }
          if other_pointer.isSome then
            some { w2 with reference_count := w2.reference_count + 1 }
          else
            some w2
        else
          some w
      | _, _ => none := by
  unfold SmartPointerArray.assign
  cases hp : findHandle w.handles this with
  | none => rfl
  | some p =>
    cases hq : findHandle w.handles other with
    | none => rfl
    | some q =>
      by_cases hne : this = other
      · simp [hne]
      · cases p with
        | none => simp [hne, hp, hq]
        | some a =>
          by_cases hc : w.reference_count - 1 = 0
          · simp [hne, hc, destroy_members_outside, World.delete_array, hp, hq]
          · simp [hne, hc, hp, hq]

theorem step_agree {T U : Type} (w : World T) (wa : World (List U)) (op : Op)
    (hh : w.handles = wa.handles) (hc : w.reference_count = wa.reference_count)
    (hs : w.released = wa.released.map Release.toSingle)
    (ha : wa.released = w.released.map Release.toArray) :
    (SmartPointer.step w op = none ∧ SmartPointerArray.step wa op = none) ∨
    ∃ w1 wa1, SmartPointer.step w op = some w1 ∧ SmartPointerArray.step wa op = some wa1 ∧
      w1.handles = wa1.handles ∧ w1.reference_count = wa1.reference_count ∧
      w1.released = wa1.released.map Release.toSingle ∧
      wa1.released = w1.released.map Release.toArray := by
  cases op with
  | construct this p =>
    simp only [SmartPointer.step, SmartPointerArray.step, SmartPointer.construct,
      SmartPointerArray.construct, hh]
    cases findHandle wa.handles this with
    | some x => exact Or.inl ⟨rfl, rfl⟩
    | none =>
      right
      cases p with
      | none => exact ⟨_, _, rfl, rfl, rfl, hc, hs, ha⟩
      | some a => exact ⟨_, _, rfl, rfl, rfl, by simp [hc], hs, ha⟩
  | copy_construct this other =>
    simp only [SmartPointer.step, SmartPointerArray.step, SmartPointer.copy_construct,
      SmartPointerArray.copy_construct, hh]
    cases findHandle wa.handles this with
    | some x => exact Or.inl ⟨by simp, by simp⟩
    | none =>
      cases findHandle wa.handles other with
      | none => exact Or.inl ⟨by simp, by simp⟩
      | some q =>
        right
        cases q with
        | none => exact ⟨_, _, rfl, rfl, rfl, hc, hs, ha⟩
        | some a => exact ⟨_, _, rfl, rfl, rfl, by simp [hc], hs, ha⟩
  | assign this other =>
    simp only [SmartPointer.step, SmartPointerArray.step, SmartPointer.assign_outside,
      array_assign_outside, hh]
    cases findHandle wa.handles this with
    | none => exact Or.inl ⟨by simp, by simp⟩
    | some p =>
      cases findHandle wa.handles other with
      | none => exact Or.inl ⟨by simp, by simp⟩
      | some q =>
        right
        by_cases hne : this = other
        · simp only [hne, ne_eq, not_true_eq_false, if_false]
          exact ⟨_, _, rfl, rfl, hh, hc, hs, ha⟩
        · simp only [ne_eq, hne, not_false_eq_true, if_true]
          cases p with
          | none =>
            cases q with
            | none => exact ⟨_, _, rfl, rfl, by simp [hh], hc, hs, ha⟩
            | some b => exact ⟨_, _, rfl, rfl, by simp [hh], by simp [hc], hs, ha⟩
          | some a =>
            by_cases hz : wa.reference_count - 1 = 0
            · have hz1 : w.reference_count - 1 = 0 := by rw [hc]; exact hz
              simp only [hz, hz1, if_true]
              cases q with
              | none =>
                exact ⟨_, _, rfl, rfl, by simp [hh, World.delete_single, World.delete_array],
                  by simp [hc, World.delete_single, World.delete_array],
                  by simp [World.delete_single, World.delete_array, Release.toSingle, hs],
                  by simp [World.delete_single, World.delete_array, Release.toArray, ha]⟩
              | some b =>
                exact ⟨_, _, rfl, rfl, by simp [hh, World.delete_single, World.delete_array],
                  by simp [hc, World.delete_single, World.delete_array],
                  by simp [World.delete_single, World.delete_array, Release.toSingle, hs],
                  by simp [World.delete_single, World.delete_array, Release.toArray, ha]⟩
            · have hz1 : ¬ w.reference_count - 1 = 0 := by rw [hc]; exact hz
              simp only [hz, hz1, if_false]
              cases q with
              | none => exact ⟨_, _, rfl, rfl, by simp [hh], by simp [hc], hs, ha⟩
              | some b => exact ⟨_, _, rfl, rfl, by simp [hh], by simp [hc], hs, ha⟩
  | destroy this =>
    simp only [SmartPointer.step, SmartPointerArray.step, SmartPointer.destroy,
      SmartPointerArray.destroy, hh]
    cases findHandle wa.handles this with
    | none => exact Or.inl ⟨rfl, rfl⟩
    | some p =>
      right
      cases p with
      | none => exact ⟨_, _, rfl, rfl, by simp [hh], hc, hs, ha⟩
      | some a =>
        by_cases hz : wa.reference_count - 1 = 0
        · have hz1 : w.reference_count - 1 = 0 := by rw [hc]; exact hz
          simp only [hz, hz1, if_true]
          exact ⟨_, _, rfl, rfl, by simp [hh, World.delete_single, World.delete_array],
            by simp [hc, World.delete_single, World.delete_array],
            by simp [World.delete_single, World.delete_array, Release.toSingle, hs],
            by simp [World.delete_single, World.delete_array, Release.toArray, ha]⟩
        · have hz1 : ¬ w.reference_count - 1 = 0 := by rw [hc]; exact hz
          simp only [hz, hz1, if_false]
          exact ⟨_, _, rfl, rfl, by simp [hh], by simp [hc], hs, ha⟩

theorem run_agree {T U : Type} (w : World T) (wa : World (List U)) (ops : List Op)
    (hh : w.handles = wa.handles) (hc : w.reference_count = wa.reference_count)
    (hs : w.released = wa.released.map Release.toSingle)
    (ha : wa.released = w.released.map Release.toArray) :
    (SmartPointer.run w ops = none ∧ SmartPointerArray.run wa ops = none) ∨
    ∃ w1 wa1, SmartPointer.run w ops = some w1 ∧ SmartPointerArray.run wa ops = some wa1 ∧
      w1.handles = wa1.handles ∧ w1.reference_count = wa1.reference_count ∧
      w1.released = wa1.released.map Release.toSingle ∧
      wa1.released = w1.released.map Release.toArray := by
  induction ops generalizing w wa with
  | nil => exact Or.inr ⟨w, wa, rfl, rfl, hh, hc, hs, ha⟩
  | cons op rest ih =>
    rcases step_agree w wa op hh hc hs ha with ⟨h1, h2⟩ | ⟨w1, wa1, h1, h2, hh1, hc1, hs1, ha1⟩
    · exact Or.inl ⟨by simp [SmartPointer.run, h1], by simp [SmartPointerArray.run, h2]⟩
    · have := ih w1 wa1 hh1 hc1 hs1 ha1
      simpa [SmartPointer.run, SmartPointerArray.run, h1, h2] using this

/-- C12: started from worlds with the same handles, the same counter and the same
deletions (up to their kind), the primary template and the array specialization run any
program of constructions, copies, assignments and destructions alike: either both have
no result, or both end with the same pointer bindings, the same counter and the same
log of deletions, where the log of the primary template holds `delete` and that of the
specialization `delete[]` of the same addresses in the same order. As this holds for
every program, it holds after each of its steps. -/
theorem specializations_run_alike {T U : Type} (w : World T) (wa : World (List U))
    (ops : List Op)
    (hh : w.handles = wa.handles) (hc : w.reference_count = wa.reference_count)
    (hs : w.released = wa.released.map Release.toSingle)
    (ha : wa.released = w.released.map Release.toArray) :
    (SmartPointer.run w ops).map (fun x => (x.handles, x.reference_count, x.released))
      = (SmartPointerArray.run wa ops).map
          (fun x => (x.handles, x.reference_count, x.released.map Release.toSingle)) ∧
    (SmartPointerArray.run wa ops).map (fun x => x.released)
      = (SmartPointer.run w ops).map (fun x => x.released.map Release.toArray) := by
  rcases run_agree w wa ops hh hc hs ha with ⟨h1, h2⟩ | ⟨w1, wa1, h1, h2, hh1, hc1, hs1, ha1⟩
  · simp [h1, h2]
  · simp only [h1, h2, Option.map_some']
    exact ⟨by rw [hh1, hc1, ← hs1], by rw [ha1]⟩

theorem specializations_run_alike_witness :
    (World.init [(100, (42 : Int))]).handles = (World.init [(100, [(1 : Int), 2])]).handles ∧
    (World.init [(100, (42 : Int))]).reference_count
      = (World.init [(100, [(1 : Int), 2])]).reference_count ∧
    (World.init [(100, (42 : Int))]).released
      = (World.init [(100, [(1 : Int), 2])]).released.map Release.toSingle ∧
    (World.init [(100, [(1 : Int), 2])]).released
      = (World.init [(100, (42 : Int))]).released.map Release.toArray ∧
    ((SmartPointer.run (World.init [(100, (42 : Int))])
          [Op.construct 0 (some 100), Op.copy_construct 1 0, Op.destroy 0, Op.destroy 1]).map
        (fun x => (x.handles, x.reference_count, x.released))
      = (SmartPointerArray.run (World.init [(100, [(1 : Int), 2])])
          [Op.construct 0 (some 100), Op.copy_construct 1 0, Op.destroy 0, Op.destroy 1]).map
          (fun x => (x.handles, x.reference_count, x.released.map Release.toSingle)) ∧
    (SmartPointerArray.run (World.init [(100, [(1 : Int), 2])])
          [Op.construct 0 (some 100), Op.copy_construct 1 0, Op.destroy 0, Op.destroy 1]).map
        (fun x => x.released)
      = (SmartPointer.run (World.init [(100, (42 : Int))])
          [Op.construct 0 (some 100), Op.copy_construct 1 0, Op.destroy 0, Op.destroy 1]).map
          (fun x => x.released.map Release.toArray)) :=
  ⟨rfl, rfl, rfl, rfl, specializations_run_alike (World.init [(100, (42 : Int))])
    (World.init [(100, [(1 : Int), 2])])
    [Op.construct 0 (some 100), Op.copy_construct 1 0, Op.destroy 0, Op.destroy 1]
    rfl rfl rfl rfl⟩

/-- C13: the boolean conversion of a live handle of the primary template is `true`
exactly when its pointer is not null, and it returns the world as it was (neither the
handle nor the counter changes). -/
theorem SmartPointer.operator_bool_iff_non_null {T : Type} (w : World T) (h : HandleId)
    (p : Ptr) (hlive : findHandle w.handles h = some p) :
    ∃ b, SmartPointer.operator_bool w h = some (b, w) ∧ (b = true ↔ p ≠ none) := by
  refine ⟨p != none, by simp [SmartPointer.operator_bool, hlive], ?_⟩
  cases p <;> simp

theorem SmartPointer.operator_bool_iff_non_null_witness :
    findHandle (⟨[(0, some 100), (1, none)], 1, [(100, 42)], []⟩ : World Int).handles 1
      = some none ∧
    (∃ b, SmartPointer.operator_bool
          (⟨[(0, some 100), (1, none)], 1, [(100, 42)], []⟩ : World Int) 1
        = some (b, ⟨[(0, some 100), (1, none)], 1, [(100, 42)], []⟩) ∧
      (b = true ↔ (none : Ptr) ≠ none)) :=
  ⟨rfl, SmartPointer.operator_bool_iff_non_null
    (⟨[(0, some 100), (1, none)], 1, [(100, 42)], []⟩ : World Int) 1 none rfl⟩

/-! ## No release while a handle is left -/

namespace SmartPointer

variable {T : Type}

end SmartPointer

namespace SmartPointer

variable {T : Type}

end SmartPointer

end SmartPointerNamespace

/-! ## The matrix: cells and loops -/

namespace MatrixNamespace

theorem dims_setCell (d : List (List Int)) (R C i j : Nat) (v : Int) (h : Dims d R C) :
    Dims (setCell d i j v) R C := by
  obtain ⟨hl, hr⟩ := h
  refine ⟨by simp [setCell, hl], ?_⟩
  intro k hk
  have hrow := hr k hk
  simp only [setCell, List.getD_eq_getElem?_getD, List.getElem?_set] at hrow ⊢
  by_cases hik : i = k
  · subst hik
    have hil : i < d.length := by omega
    simp only [List.getElem?_eq_getElem hil, Option.getD_some] at hrow
    simp [hil, hrow]
  · simp [hik, hrow]

theorem cell_setCell (d : List (List Int)) (R C i j i2 j2 : Nat) (v : Int) (h : Dims d R C)
    (hi : i < R) (hj : j < C) :
    cell (setCell d i j v) i2 j2 = if i2 = i ∧ j2 = j then v else cell d i2 j2 := by
  obtain ⟨hl, hr⟩ := h
  have hil : i < d.length := by omega
  have hrow := hr i hi
  simp only [List.getD_eq_getElem?_getD, List.getElem?_eq_getElem hil, Option.getD_some]
    at hrow
  simp only [cell, setCell, List.getD_eq_getElem?_getD, List.getElem?_set]
  by_cases hik : i = i2
  · subst hik
    by_cases hjk : j = j2
    · subst hjk
      simp [hil, hrow, hj]
    · have hjk2 : ¬ j2 = j := fun h => hjk h.symm
      simp [hil, hjk, hjk2, List.getElem?_set]
  · have hik2 : ¬ i2 = i := fun h => hik h.symm
    simp [hik, hik2]

theorem updates_setCell (R C i j : Nat) (F : Int → Int) (hi : i < R) (hj : j < C) :
    Updates R C (fun d => setCell d i j (F (cell d i j))) (fun a b => a = i ∧ b = j)
      (fun _ _ => F) := by
  intro d hd
  refine ⟨dims_setCell d R C i j _ hd, ?_, ?_⟩
  · intro a b hab
    obtain ⟨ha, hb⟩ := hab
    subst ha
    subst hb
    rw [cell_setCell d R C a b a b _ hd hi hj]
    simp
  · intro a b hab
    rw [cell_setCell d R C i j a b _ hd hi hj]
    simp only [hab, if_false]

/-- A loop whose iterations update pairwise disjoint regions updates their union. -/
theorem updates_loop_disjoint (R C n : Nat) (B : Nat → List (List Int) → List (List Int))
    (S : Nat → Nat → Nat → Prop) (V : Nat → Nat → Int → Int)
    (hB : ∀ k, k < n → Updates R C (B k) (S k) V)
    (hdisj : ∀ k k2 i j, k < n → k2 < n → S k i j → S k2 i j → k = k2) :
    Updates R C (loopN B n) (fun i j => ∃ k, k < n ∧ S k i j) V := by
  induction n with
  | zero =>
    intro d hd
    exact ⟨hd, fun i j h => by obtain ⟨k, hk, _⟩ := h; omega, fun i j _ => rfl⟩
  | succ n ih =>
    have ihn := ih (fun k hk => hB k (by omega))
      (fun k k2 i j hk hk2 => hdisj k k2 i j (by omega) (by omega))
    intro d hd
    obtain ⟨hd1, hin1, hout1⟩ := ihn d hd
    obtain ⟨hd2, hin2, hout2⟩ := hB n (by omega) (loopN B n d) hd1
    refine ⟨hd2, ?_, ?_⟩
    · intro i j hS
      obtain ⟨k, hk, hSk⟩ := hS
      by_cases hkn : k = n
      · subst hkn
        have hnot : ¬ ∃ k2, k2 < k ∧ S k2 i j := by
          intro hex
          obtain ⟨k2, hk2, hS2⟩ := hex
          have := hdisj k2 k i j (by omega) (by omega) hS2 hSk
          omega
        show cell (B k (loopN B k d)) i j = _
        rw [hin2 i j hSk, hout1 i j hnot]
      · have hnot : ¬ S n i j := by
          intro hSn
          have := hdisj k n i j (by omega) (by omega) hSk hSn
          exact hkn this
        show cell (B n (loopN B n d)) i j = _
        rw [hout2 i j hnot, hin1 i j ⟨k, by omega, hSk⟩]
    · intro i j hS
      have hnot : ¬ S n i j := fun hSn => hS ⟨n, by omega, hSn⟩
      have hnot1 : ¬ ∃ k, k < n ∧ S k i j := by
        intro hex
        obtain ⟨k, hk, hSk⟩ := hex
        exact hS ⟨k, by omega, hSk⟩
      show cell (B n (loopN B n d)) i j = _
      rw [hout2 i j hnot, hout1 i j hnot1]

/-- A loop whose iterations all update one region composes their effects. -/
theorem updates_loop_same (R C n : Nat) (B : Nat → List (List Int) → List (List Int))
    (S : Nat → Nat → Prop) (V : Nat → Nat → Nat → Int → Int)
    (hB : ∀ k, k < n → Updates R C (B k) S (V k)) :
    Updates R C (loopN B n) S (fun i j acc => loopN (fun k x => V k i j x) n acc) := by
  induction n with
  | zero =>
    intro d hd
    exact ⟨hd, fun i j _ => rfl, fun i j _ => rfl⟩
  | succ n ih =>
    have ihn := ih (fun k hk => hB k (by omega))
    intro d hd
    obtain ⟨hd1, hin1, hout1⟩ := ihn d hd
    obtain ⟨hd2, hin2, hout2⟩ := hB n (by omega) (loopN B n d) hd1
    refine ⟨hd2, ?_, ?_⟩
    · intro i j hS
      show cell (B n (loopN B n d)) i j = V n i j (loopN (fun k x => V k i j x) n (cell d i j))
      rw [hin2 i j hS, hin1 i j hS]
    · intro i j hS
      show cell (B n (loopN B n d)) i j = _
      rw [hout2 i j hS, hout1 i j hS]

theorem updates_congr (R C : Nat) (B : List (List Int) → List (List Int))
    (S S2 : Nat → Nat → Prop) (V V2 : Nat → Nat → Int → Int)
    (h : Updates R C B S V) (hS : ∀ i j, S2 i j ↔ S i j)
    (hV : ∀ i j x, S i j → V2 i j x = V i j x) : Updates R C B S2 V2 := by
  intro d hd
  obtain ⟨h1, h2, h3⟩ := h d hd
  refine ⟨h1, ?_, ?_⟩
  · intro i j hs
    rw [h2 i j ((hS i j).mp hs), hV i j _ ((hS i j).mp hs)]
  · intro i j hs
    exact h3 i j (fun hc => hs ((hS i j).mpr hc))

theorem wrapInt_add_wrapInt (x y : Int) : wrapInt (x + wrapInt y) = wrapInt (x + y) := by
  unfold wrapInt
  omega

theorem wrapInt_wrapInt_add (x y : Int) : wrapInt (wrapInt x + y) = wrapInt (x + y) := by
  unfold wrapInt
  omega

theorem wrapInt_of_range (x : Int) (hlo : -2147483648 ≤ x) (hhi : x < 2147483648) :
    wrapInt x = x := by
  unfold wrapInt
  omega

theorem wrapInt_range (x : Int) : -2147483648 ≤ wrapInt x ∧ wrapInt x < 2147483648 := by
  unfold wrapInt
  omega

theorem loop_sum (f : Nat → Int) (n : Nat) :
    loopN (fun k x => wrapInt (x + wrapInt (f k))) n 0
      = wrapInt (∑ k in Finset.range n, f k) := by
  induction n with
  | zero => simp [loopN, wrapInt]
  | succ n ih =>
    simp only [loopN, ih, Finset.sum_range_succ]
    rw [wrapInt_add_wrapInt, wrapInt_wrapInt_add]

theorem dims_of_wellFormed (m : Matrix) (h : m.wellFormed = true) :
    0 < m.row_count ∧ 0 < m.column_count ∧
      Dims m.matrix_data m.row_count.toNat m.column_count.toNat := by
  simp only [Matrix.wellFormed, Bool.and_eq_true, decide_eq_true_eq, List.all_eq_true] at h
  obtain ⟨⟨⟨h1, h2⟩, h3⟩, h4⟩ := h
  refine ⟨h1, h2, h3, ?_⟩
  intro i hi
  have hil : i < m.matrix_data.length := by omega
  simp only [List.getD_eq_getElem?_getD, List.getElem?_eq_getElem hil, Option.getD_some]
  exact h4 _ (List.getElem_mem hil)

theorem wellFormed_of_dims (m : Matrix) (h1 : 0 < m.row_count) (h2 : 0 < m.column_count)
    (h : Dims m.matrix_data m.row_count.toNat m.column_count.toNat) :
    m.wellFormed = true := by
  simp only [Matrix.wellFormed, Bool.and_eq_true, decide_eq_true_eq, List.all_eq_true]
  refine ⟨⟨⟨h1, h2⟩, h.1⟩, ?_⟩
  intro row hrow
  obtain ⟨i, hi, hget⟩ := List.getElem_of_mem hrow
  have := h.2 i (by rw [← h.1]; exact hi)
  simp only [List.getD_eq_getElem?_getD, List.getElem?_eq_getElem hi, Option.getD_some] at this
  rw [← hget]
  exact this

theorem allocate_loop (R C n : Nat) (hn : n ≤ R) :
    (loopN (fun i (d : List (List Int)) => d.set i (List.replicate C 0)) n
        (List.replicate R [])).length = R ∧
    ∀ i, (loopN (fun i (d : List (List Int)) => d.set i (List.replicate C 0)) n
        (List.replicate R []))[i]?.getD []
      = if i < n then List.replicate C 0 else [] := by
  induction n with
  | zero =>
    refine ⟨by simp [loopN], ?_⟩
    intro i
    by_cases hi : i < R
    · simp [loopN, List.getElem?_replicate, hi]
    · simp [loopN, List.getElem?_replicate, hi]
  | succ n ih =>
    obtain ⟨hl, hc⟩ := ih (by omega)
    refine ⟨by simp [loopN, hl], ?_⟩
    intro i
    simp only [loopN, List.getElem?_set]
    by_cases hin : n = i
    · subst hin
      have hlt : n < (loopN (fun i (d : List (List Int)) => d.set i (List.replicate C 0)) n
          (List.replicate R [])).length := by rw [hl]; omega
      simp [hlt]
    · simp only [hin, if_false, hc i]
      by_cases h1 : i < n
      · have : i < n + 1 := by omega
        simp [h1, this]
      · have : ¬ i < n + 1 := by omega
        simp [h1, this]

theorem allocate_dims (rows columns : Int) :
    Dims (allocate_matrix_memory rows columns) rows.toNat columns.toNat ∧
    ∀ i j, cell (allocate_matrix_memory rows columns) i j = 0 := by
  obtain ⟨hl, hc⟩ := allocate_loop rows.toNat columns.toNat rows.toNat (le_refl _)
  refine ⟨⟨hl, ?_⟩, ?_⟩
  · intro i hi
    simp only [allocate_matrix_memory, forLoop, List.getD_eq_getElem?_getD, hc i, hi, if_true,
      List.length_replicate]
  · intro i j
    simp only [allocate_matrix_memory, forLoop, cell, List.getD_eq_getElem?_getD, hc i]
    by_cases hi : i < rows.toNat
    · by_cases hj : j < columns.toNat
      · simp [hi, List.getElem?_replicate, hj]
      · simp [hi, List.getElem?_replicate, hj]
    · simp [hi]

theorem updates_fill (R C : Nat) (body : Nat → Nat → List (List Int) → List (List Int))
    (V : Nat → Nat → Int → Int)
    (hbody : ∀ i j, i < R → j < C →
      Updates R C (body i j) (fun a b => a = i ∧ b = j) V) :
    Updates R C (loopN (fun i d => loopN (fun j d => body i j d) C d) R)
      (fun i j => i < R ∧ j < C) V := by
  have hrow : ∀ i, i < R →
      Updates R C (fun d => loopN (fun j d => body i j d) C d) (fun a b => a = i ∧ b < C) V := by
    intro i hi
    refine updates_congr R C _ _ _ V V
      (updates_loop_disjoint R C C (fun j d => body i j d) (fun j a b => a = i ∧ b = j) V
        (fun j hj => hbody i j hi hj) ?_) ?_ (fun _ _ _ _ => rfl)
    · intro k k2 a b _ _ h1 h2
      rw [← h1.2, ← h2.2]
    · intro a b
      constructor
      · intro h
        exact ⟨b, h.2, h.1, rfl⟩
      · intro h
        obtain ⟨k, hk, h1, h2⟩ := h
        exact ⟨h1, by rw [h2]; exact hk⟩
  refine updates_congr R C _ _ _ V V
    (updates_loop_disjoint R C R (fun i d => loopN (fun j d => body i j d) C d)
      (fun i a b => a = i ∧ b < C) V hrow ?_) ?_ (fun _ _ _ _ => rfl)
  · intro k k2 a b _ _ h1 h2
    rw [← h1.1, ← h2.1]
  · intro a b
    constructor
    · intro h
      exact ⟨a, h.1, rfl, h.2⟩
    · intro h
      obtain ⟨k, hk, h1, h2⟩ := h
      exact ⟨by rw [h1]; exact hk, h2⟩

theorem plus_loops (R C : Nat) (a b : Nat → Nat → Int) :
    Updates R C
      (loopN (fun i d => loopN (fun j d => setCell d i j (wrapInt (a i j + b i j))) C d) R)
      (fun i j => i < R ∧ j < C) (fun i j _ => wrapInt (a i j + b i j)) := by
  refine updates_fill R C (fun i j d => setCell d i j (wrapInt (a i j + b i j))) _ ?_
  intro i j hi hj
  refine updates_congr R C _ _ _ _ _
    (updates_setCell R C i j (fun _ => wrapInt (a i j + b i j)) hi hj) (fun _ _ => Iff.rfl) ?_
  intro i2 j2 x h
  rw [h.1, h.2]

theorem times_loops (R C K : Nat) (a b : Nat → Nat → Int) :
    Updates R C
      (loopN (fun i d => loopN (fun j d => loopN (fun k d =>
        setCell d i j (wrapInt (cell d i j + wrapInt (a i k * b k j)))) K d) C d) R)
      (fun i j => i < R ∧ j < C)
      (fun i j acc => loopN (fun k x => wrapInt (x + wrapInt (a i k * b k j))) K acc) := by
  refine updates_fill R C (fun i j d => loopN (fun k d =>
    setCell d i j (wrapInt (cell d i j + wrapInt (a i k * b k j)))) K d) _ ?_
  intro i j hi hj
  refine updates_congr R C _ _ _ _ _
    (updates_loop_same R C K
      (fun k d => setCell d i j (wrapInt (cell d i j + wrapInt (a i k * b k j))))
      (fun a2 b2 => a2 = i ∧ b2 = j)
      (fun k _ _ x => wrapInt (x + wrapInt (a i k * b k j)))
      (fun k _ => updates_setCell R C i j (fun x => wrapInt (x + wrapInt (a i k * b k j)))
        hi hj))
    (fun _ _ => Iff.rfl) ?_
  intro i2 j2 x h
  rw [h.1, h.2]

theorem operator_times_eq (A B : Matrix) (hdim : A.column_count = B.row_count)
    (hr : 0 < A.row_count) (hc : 0 < B.column_count) :
    A.operator_times B = Except.ok ⟨A.row_count, B.column_count,
      loopN (fun i d => loopN (fun j d => loopN (fun k d =>
        setCell d i j (wrapInt (cell d i j
          + wrapInt (cell A.matrix_data i k * cell B.matrix_data k j))))
        A.column_count.toNat d) B.column_count.toNat d) A.row_count.toNat
        (allocate_matrix_memory A.row_count B.column_count)⟩ := by
  have hpos : ¬ (A.row_count ≤ 0 ∨ B.column_count ≤ 0) := by omega
  simp only [Matrix.operator_times, hdim, ne_eq, not_true_eq_false, if_false,
    Matrix.construct, hpos, forLoop]

theorem operator_plus_eq (A B : Matrix) (hrows : A.row_count = B.row_count)
    (hcols : A.column_count = B.column_count)
    (hr : 0 < A.row_count) (hc : 0 < A.column_count) :
    A.operator_plus B = Except.ok ⟨A.row_count, A.column_count,
      loopN (fun i d => loopN (fun j d =>
        setCell d i j (wrapInt (cell A.matrix_data i j + cell B.matrix_data i j)))
        A.column_count.toNat d) A.row_count.toNat
        (allocate_matrix_memory A.row_count A.column_count)⟩ := by
  have hpos : ¬ (A.row_count ≤ 0 ∨ A.column_count ≤ 0) := by omega
  have hne : ¬ (A.row_count ≠ B.row_count ∨ A.column_count ≠ B.column_count) := by
    simp [hrows, hcols]
  simp only [Matrix.operator_plus, hne, if_false, Matrix.construct, hpos, forLoop]

/-- C15: for class instances `A` (`r × c`) and `B` (`r' × c'`), `A * B` ends in the
exception exactly when `c ≠ r'`; otherwise the result is a class instance with `r` rows
and `c'` columns whose entry `(i, j)` is the `int` value of the sum over `k < c` of
`A(i,k) * B(k,j)`, which is that sum itself in exact integer arithmetic (whenever the sum
is in the range of `int`). The operands are values and are not changed. -/
theorem Matrix.operator_times_entries (A B : Matrix)
    (hA : A.wellFormed = true) (hB : B.wellFormed = true) :
    ((∃ e, A.operator_times B = Except.error e) ↔ A.column_count ≠ B.row_count) ∧
    (A.column_count = B.row_count →
      ∃ P, A.operator_times B = Except.ok P ∧ P.wellFormed = true ∧
        P.row_count = A.row_count ∧ P.column_count = B.column_count ∧
        ∀ i j : Nat, (i : Int) < A.row_count → (j : Int) < B.column_count →
          P.read (i, j) = wrapInt
            (∑ k in Finset.range A.column_count.toNat, A.read (i, k) * B.read (k, j)) ∧
          (-2147483648 ≤ ∑ k in Finset.range A.column_count.toNat, A.read (i, k) * B.read (k, j) →
            ∑ k in Finset.range A.column_count.toNat, A.read (i, k) * B.read (k, j) < 2147483648 →
            P.read (i, j)
              = ∑ k in Finset.range A.column_count.toNat, A.read (i, k) * B.read (k, j))) := by
  obtain ⟨hAr, hAc, _⟩ := dims_of_wellFormed A hA
  obtain ⟨hBr, hBc, _⟩ := dims_of_wellFormed B hB
  have hcons : Matrix.construct A.row_count B.column_count
      = Except.ok ⟨A.row_count, B.column_count,
          allocate_matrix_memory A.row_count B.column_count⟩ := by
    have : ¬ (A.row_count ≤ 0 ∨ B.column_count ≤ 0) := by omega
    simp [Matrix.construct, this]
  constructor
  · by_cases hdim : A.column_count = B.row_count
    · simp [Matrix.operator_times, hdim, hcons]
    · simp [Matrix.operator_times, hdim]
  · intro hdim
    obtain ⟨hd0, hz⟩ := allocate_dims A.row_count B.column_count
    obtain ⟨hd1, hin, _⟩ := times_loops A.row_count.toNat B.column_count.toNat
      A.column_count.toNat (cell A.matrix_data) (cell B.matrix_data) _ hd0
    refine ⟨_, operator_times_eq A B hdim hAr hBc, ?_, rfl, rfl, ?_⟩
    · exact wellFormed_of_dims _ hAr hBc hd1
    · intro i j hi hj
      have hcell := hin i j ⟨by omega, by omega⟩
      beta_reduce at hcell
      rw [hz i j, loop_sum] at hcell
      refine ⟨hcell, ?_⟩
      intro hlo hhi
      simp only [Matrix.read] at hlo hhi ⊢
      rw [hcell]
      exact wrapInt_of_range _ hlo hhi

/-- C17: for class instances `A` and `B`, `A + B` ends in the exception exactly when the
row counts or the column counts differ; otherwise the result has the dimensions of `A`
and its entry `(i, j)` is the `int` value of `A(i,j) + B(i,j)`, which is that sum itself
in exact integer arithmetic (whenever it is in the range of `int`); and `A + B` and
`B + A` are the same result. -/
theorem Matrix.operator_plus_entries (A B : Matrix)
    (hA : A.wellFormed = true) (_hB : B.wellFormed = true) :
    ((∃ e, A.operator_plus B = Except.error e) ↔
      (A.row_count ≠ B.row_count ∨ A.column_count ≠ B.column_count)) ∧
    (A.row_count = B.row_count → A.column_count = B.column_count →
      ∃ P, A.operator_plus B = Except.ok P ∧ P.wellFormed = true ∧
        P.row_count = A.row_count ∧ P.column_count = A.column_count ∧
        ∀ i j : Nat, (i : Int) < A.row_count → (j : Int) < A.column_count →
          P.read (i, j) = wrapInt (A.read (i, j) + B.read (i, j)) ∧
          (-2147483648 ≤ A.read (i, j) + B.read (i, j) →
            A.read (i, j) + B.read (i, j) < 2147483648 →
            P.read (i, j) = A.read (i, j) + B.read (i, j))) ∧
    A.operator_plus B = B.operator_plus A := by
  obtain ⟨hAr, hAc, _⟩ := dims_of_wellFormed A hA
  have hcons : Matrix.construct A.row_count A.column_count
      = Except.ok ⟨A.row_count, A.column_count,
          allocate_matrix_memory A.row_count A.column_count⟩ := by
    have : ¬ (A.row_count ≤ 0 ∨ A.column_count ≤ 0) := by omega
    simp [Matrix.construct, this]
  refine ⟨?_, ?_, ?_⟩
  · by_cases hdim : A.row_count ≠ B.row_count ∨ A.column_count ≠ B.column_count
    · simp [Matrix.operator_plus, hdim]
    · simp only [Matrix.operator_plus, hdim, if_false, hcons, iff_false, not_exists]
      intro e he
      cases he
  · intro hr hc
    have hdim : ¬ (A.row_count ≠ B.row_count ∨ A.column_count ≠ B.column_count) := by
      simp [hr, hc]
    obtain ⟨hd0, hz⟩ := allocate_dims A.row_count A.column_count
    obtain ⟨hd1, hin, _⟩ := plus_loops A.row_count.toNat A.column_count.toNat
      (cell A.matrix_data) (cell B.matrix_data) _ hd0
    refine ⟨_, operator_plus_eq A B hr hc hAr hAc, ?_, rfl, rfl, ?_⟩
    · exact wellFormed_of_dims _ hAr hAc hd1
    · intro i j hi hj
      have hcell := hin i j ⟨by omega, by omega⟩
      beta_reduce at hcell
      refine ⟨hcell, ?_⟩
      intro hlo hhi
      simp only [Matrix.read] at hlo hhi ⊢
      rw [hcell]
      exact wrapInt_of_range _ hlo hhi
  · by_cases hdim : A.row_count = B.row_count ∧ A.column_count = B.column_count
    · obtain ⟨hr, hc⟩ := hdim
      have hfun : (fun (i : Nat) (d : List (List Int)) =>
            forLoop A.column_count (fun j d =>
              setCell d i j (wrapInt (cell A.matrix_data i j + cell B.matrix_data i j))) d)
          = (fun (i : Nat) (d : List (List Int)) =>
            forLoop A.column_count (fun j d =>
              setCell d i j (wrapInt (cell B.matrix_data i j + cell A.matrix_data i j))) d) := by
        funext i d
        congr 1
        funext j d2
        rw [add_comm]
      simp only [Matrix.operator_plus, ← hr, ← hc, ne_eq, not_true_eq_false, or_self, if_false,
        hcons, hfun]
    · have h1 : A.row_count ≠ B.row_count ∨ A.column_count ≠ B.column_count := by omega
      have h2 : B.row_count ≠ A.row_count ∨ B.column_count ≠ A.column_count := by omega
      simp [Matrix.operator_plus, h1, h2]

/-- C18: `Matrix(rows, columns)` ends in the exception exactly when `rows ≤ 0` or
`columns ≤ 0` and otherwise gives a `rows × columns` class instance all of whose cells
read 0; `m(r, c)` ends in the exception exactly when `r < 0`, `r ≥ row_count`, `c < 0`
or `c ≥ column_count`; and for a class instance `m` and an in-range `(row, column)`, after
`m(row, column) = v` that element reads `v`, every other in-range element reads what it
read before, and the dimensions are unchanged. -/
theorem Matrix.construct_and_access (rows columns : Int) (m : Matrix) (row column v : Int)
    (hm : m.wellFormed = true) (hrow : 0 ≤ row ∧ row < m.row_count)
    (hcol : 0 ≤ column ∧ column < m.column_count) :
    (((∃ e, Matrix.construct rows columns = Except.error e) ↔ (rows ≤ 0 ∨ columns ≤ 0)) ∧
      (¬ (rows ≤ 0 ∨ columns ≤ 0) →
        ∃ z, Matrix.construct rows columns = Except.ok z ∧ z.wellFormed = true ∧
          z.row_count = rows ∧ z.column_count = columns ∧ ∀ i j, z.read (i, j) = 0)) ∧
    (∀ r c : Int, (∃ e, m.operator_call r c = Except.error e) ↔
      (r < 0 ∨ r ≥ m.row_count ∨ c < 0 ∨ c ≥ m.column_count)) ∧
    (∃ loc, m.operator_call row column = Except.ok loc ∧
      (m.write loc v).operator_call row column = Except.ok loc ∧
      (m.write loc v).read loc = v ∧
      (m.write loc v).row_count = m.row_count ∧
      (m.write loc v).column_count = m.column_count ∧
      (m.write loc v).wellFormed = true ∧
      ∀ r c : Int, 0 ≤ r → r < m.row_count → 0 ≤ c → c < m.column_count →
        (r ≠ row ∨ c ≠ column) →
        ∃ loc2, m.operator_call r c = Except.ok loc2 ∧
          (m.write loc v).operator_call r c = Except.ok loc2 ∧
          (m.write loc v).read loc2 = m.read loc2) := by
  obtain ⟨hr0, hc0, hd⟩ := dims_of_wellFormed m hm
  refine ⟨⟨?_, ?_⟩, ?_, ?_⟩
  · by_cases hbad : rows ≤ 0 ∨ columns ≤ 0
    · simp [Matrix.construct, hbad]
    · simp [Matrix.construct, hbad]
  · intro hgood
    obtain ⟨hd0, hz⟩ := allocate_dims rows columns
    refine ⟨⟨rows, columns, allocate_matrix_memory rows columns⟩,
      by simp only [Matrix.construct, hgood, if_false], ?_, rfl, rfl, fun i j => hz i j⟩
    exact wellFormed_of_dims _ (by simp only; omega) (by simp only; omega) hd0
  · intro r c
    by_cases hbad : r < 0 ∨ r ≥ m.row_count ∨ c < 0 ∨ c ≥ m.column_count
    · simp [Matrix.operator_call, hbad]
    · simp [Matrix.operator_call, hbad]
  · have hgood : ¬ (row < 0 ∨ row ≥ m.row_count ∨ column < 0 ∨ column ≥ m.column_count) := by
      omega
    have hi : row.toNat < m.row_count.toNat := by omega
    have hj : column.toNat < m.column_count.toNat := by omega
    refine ⟨(row.toNat, column.toNat), by simp only [Matrix.operator_call, hgood, if_false],
      by simp only [Matrix.operator_call, Matrix.write, hgood, if_false], ?_, rfl, rfl, ?_, ?_⟩
    · simp only [Matrix.read, Matrix.write]
      rw [cell_setCell _ _ _ _ _ _ _ _ hd hi hj]
      simp
    · exact wellFormed_of_dims _ hr0 hc0 (dims_setCell _ _ _ _ _ _ hd)
    · intro r c hr1 hr2 hc1 hc2 hne
      have hgood2 : ¬ (r < 0 ∨ r ≥ m.row_count ∨ c < 0 ∨ c ≥ m.column_count) := by omega
      refine ⟨(r.toNat, c.toNat), by simp only [Matrix.operator_call, hgood2, if_false],
        by simp only [Matrix.operator_call, Matrix.write, hgood2, if_false], ?_⟩
      simp only [Matrix.read, Matrix.write]
      rw [cell_setCell _ _ _ _ _ _ _ _ hd hi hj]
      have : ¬ (r.toNat = row.toNat ∧ c.toNat = column.toNat) := by omega
      simp only [this, if_false]

theorem increment_index (m : Matrix) (hc : 0 < m.column_count) (k : Nat) :
    Iterator.operator_increment m
        ⟨((k / m.column_count.toNat : Nat) : Int), ((k % m.column_count.toNat : Nat) : Int)⟩
      = ⟨(((k + 1) / m.column_count.toNat : Nat) : Int),
          (((k + 1) % m.column_count.toNat : Nat) : Int)⟩ := by
  have hcast : (m.column_count.toNat : Int) = m.column_count := Int.toNat_of_nonneg (by omega)
  have hcpos : 0 < m.column_count.toNat := by omega
  generalize m.column_count.toNat = c at hcast hcpos
  have hdm := Nat.div_add_mod k c
  have hlt := Nat.mod_lt k hcpos
  by_cases hlast : k % c + 1 = c
  · have hq : (k + 1) / c = k / c + 1 ∧ (k + 1) % c = 0 := by
      rw [Nat.div_mod_unique hcpos]
      have hmul : c * (k / c + 1) = c * (k / c) + c := by ring
      omega
    have hge : (↑(k % c) : Int) + 1 ≥ m.column_count := by omega
    simp only [Iterator.operator_increment, hge, if_true, hq.1, hq.2]
    simp
  · have hq : (k + 1) / c = k / c ∧ (k + 1) % c = k % c + 1 := by
      rw [Nat.div_mod_unique hcpos]
      omega
    have hge : ¬ (↑(k % c) : Int) + 1 ≥ m.column_count := by omega
    simp only [Iterator.operator_increment, hge, if_false, hq.1, hq.2]
    simp

theorem iterate_index (m : Matrix) (hc : 0 < m.column_count) (k : Nat) :
    (Iterator.operator_increment m)^[k] m.begin
      = ⟨((k / m.column_count.toNat : Nat) : Int), ((k % m.column_count.toNat : Nat) : Int)⟩ := by
  induction k with
  | zero => simp [Matrix.begin]
  | succ n ih =>
    rw [Function.iterate_succ_apply', ih, increment_index m hc n]

theorem index_in_range (m : Matrix) (hr : 0 < m.row_count) (hc : 0 < m.column_count)
    (k : Nat) (hk : k < m.row_count.toNat * m.column_count.toNat) :
    ((k / m.column_count.toNat : Nat) : Int) < m.row_count ∧
    ((k % m.column_count.toNat : Nat) : Int) < m.column_count := by
  have hcpos : 0 < m.column_count.toNat := by omega
  have h1 : k / m.column_count.toNat < m.row_count.toNat := by
    rw [Nat.div_lt_iff_lt_mul hcpos]
    exact hk
  have h2 := Nat.mod_lt k hcpos
  omega

theorem traverse_from (m : Matrix) (hr : 0 < m.row_count) (hc : 0 < m.column_count)
    (n k fuel : Nat) (hn : k + n = m.row_count.toNat * m.column_count.toNat)
    (hfuel : n < fuel) :
    traverse m fuel
        ⟨((k / m.column_count.toNat : Nat) : Int), ((k % m.column_count.toNat : Nat) : Int)⟩
      = some (Except.ok ((List.range' k n).map
          (fun t => m.read (t / m.column_count.toNat, t % m.column_count.toNat)))) := by
  have hcpos : 0 < m.column_count.toNat := by omega
  induction n generalizing k fuel with
  | zero =>
    obtain ⟨f, rfl⟩ : ∃ f, fuel = f + 1 := ⟨fuel - 1, by omega⟩
    have hk : k = m.row_count.toNat * m.column_count.toNat := by omega
    have hrow : ((k / m.column_count.toNat : Nat) : Int) = m.row_count := by
      rw [hk, Nat.mul_div_cancel _ hcpos]
      omega
    have hcol : ((k % m.column_count.toNat : Nat) : Int) = 0 := by
      rw [hk, Nat.mul_mod_left]
      rfl
    simp [traverse, Iterator.operator_ne, Matrix.end_, hrow, hcol]
  | succ n ih =>
    obtain ⟨f, rfl⟩ : ∃ f, fuel = f + 1 := ⟨fuel - 1, by omega⟩
    obtain ⟨h1, h2⟩ := index_in_range m hr hc k (by omega)
    have hne : ((k / m.column_count.toNat : Nat) : Int) ≠ m.row_count := by omega
    have hq0 : (0 : Int) ≤ ((k / m.column_count.toNat : Nat) : Int) := Int.natCast_nonneg _
    have hm0 : (0 : Int) ≤ ((k % m.column_count.toNat : Nat) : Int) := Int.natCast_nonneg _
    have hcond : (((k / m.column_count.toNat : Nat) : Int) != m.row_count ||
        ((k % m.column_count.toNat : Nat) : Int) != 0) = true := by
      have hb : (((k / m.column_count.toNat : Nat) : Int) != m.row_count) = true :=
        bne_iff_ne.mpr hne
      rw [hb]
      rfl
    have hgood : ¬ (((k / m.column_count.toNat : Nat) : Int) < 0 ∨
        ((k / m.column_count.toNat : Nat) : Int) ≥ m.row_count ∨
        ((k % m.column_count.toNat : Nat) : Int) < 0 ∨
        ((k % m.column_count.toNat : Nat) : Int) ≥ m.column_count) := by omega
    have hrec := ih (k + 1) f (by omega) (by omega)
    rw [← increment_index m hc k] at hrec
    simp only [traverse, Iterator.operator_ne, Matrix.end_, hcond, if_true,
      Iterator.operator_star, Matrix.operator_call, hgood, if_false, hrec, Int.toNat_ofNat,
      List.range'_succ, List.map_cons]

/-- C16: for a class instance `m` with `r` rows and `c` columns, the iterator reached
from `m.begin()` by `k < r * c` increments differs from `m.end()` and dereferences
without exception to element `(k / c, k % c)`; after exactly `r * c` increments it no
longer differs from `m.end()`; and the loop from `begin()` to `end()` returns (given
fuel above `r * c`) the `r * c` elements in row-major order. -/
theorem Matrix.iterator_traversal (m : Matrix) (hm : m.wellFormed = true) :
    (∀ k, k < m.row_count.toNat * m.column_count.toNat →
      Iterator.operator_ne ((Iterator.operator_increment m)^[k] m.begin) m.end_ = true ∧
      Iterator.operator_star m ((Iterator.operator_increment m)^[k] m.begin)
        = Except.ok (k / m.column_count.toNat, k % m.column_count.toNat)) ∧
    Iterator.operator_ne
      ((Iterator.operator_increment m)^[m.row_count.toNat * m.column_count.toNat] m.begin)
      m.end_ = false ∧
    (∀ fuel, m.row_count.toNat * m.column_count.toNat < fuel →
      traverse m fuel m.begin = some (Except.ok
        ((List.range (m.row_count.toNat * m.column_count.toNat)).map
          (fun k => m.read (k / m.column_count.toNat, k % m.column_count.toNat))))) := by
  obtain ⟨hr, hc, _⟩ := dims_of_wellFormed m hm
  have hcpos : 0 < m.column_count.toNat := by omega
  refine ⟨?_, ?_, ?_⟩
  · intro k hk
    obtain ⟨h1, h2⟩ := index_in_range m hr hc k hk
    have hq0 : (0 : Int) ≤ ((k / m.column_count.toNat : Nat) : Int) := Int.natCast_nonneg _
    have hm0 : (0 : Int) ≤ ((k % m.column_count.toNat : Nat) : Int) := Int.natCast_nonneg _
    have hne : ((k / m.column_count.toNat : Nat) : Int) ≠ m.row_count := by omega
    have hgood : ¬ (((k / m.column_count.toNat : Nat) : Int) < 0 ∨
        ((k / m.column_count.toNat : Nat) : Int) ≥ m.row_count ∨
        ((k % m.column_count.toNat : Nat) : Int) < 0 ∨
        ((k % m.column_count.toNat : Nat) : Int) ≥ m.column_count) := by omega
    rw [iterate_index m hc k]
    constructor
    · have hb : (((k / m.column_count.toNat : Nat) : Int) != m.row_count) = true :=
        bne_iff_ne.mpr hne
      simp only [Iterator.operator_ne, Matrix.end_, hb]
      rfl
    · simp only [Iterator.operator_star, Matrix.operator_call, hgood, if_false,
        Int.toNat_ofNat]
  · rw [iterate_index m hc, Nat.mul_div_cancel _ hcpos, Nat.mul_mod_left]
    have hrow : ((m.row_count.toNat : Nat) : Int) = m.row_count := Int.toNat_of_nonneg (by omega)
    simp [Iterator.operator_ne, Matrix.end_, hrow]
  · intro fuel hfuel
    have h := traverse_from m hr hc (m.row_count.toNat * m.column_count.toNat) 0 fuel
      (by omega) hfuel
    simp only [Nat.zero_div, Nat.zero_mod] at h
    rw [List.range_eq_range']
    exact h

theorem Matrix.operator_times_entries_witness :
    (⟨2, 2, [[1, 1], [1, 1]]⟩ : Matrix).wellFormed = true ∧
    (⟨2, 2, [[2, 2], [2, 2]]⟩ : Matrix).wellFormed = true ∧
    (((∃ e, (⟨2, 2, [[1, 1], [1, 1]]⟩ : Matrix).operator_times ⟨2, 2, [[2, 2], [2, 2]]⟩
        = Except.error e) ↔ (2 : Int) ≠ 2) ∧
    ((2 : Int) = 2 →
      ∃ P, (⟨2, 2, [[1, 1], [1, 1]]⟩ : Matrix).operator_times ⟨2, 2, [[2, 2], [2, 2]]⟩
          = Except.ok P ∧ P.wellFormed = true ∧
        P.row_count = 2 ∧ P.column_count = 2 ∧
        ∀ i j : Nat, (i : Int) < 2 → (j : Int) < 2 →
          P.read (i, j) = wrapInt
            (∑ k in Finset.range (2 : Int).toNat,
              (⟨2, 2, [[1, 1], [1, 1]]⟩ : Matrix).read (i, k)
                * (⟨2, 2, [[2, 2], [2, 2]]⟩ : Matrix).read (k, j)) ∧
          (-2147483648 ≤ ∑ k in Finset.range (2 : Int).toNat,
              (⟨2, 2, [[1, 1], [1, 1]]⟩ : Matrix).read (i, k)
                * (⟨2, 2, [[2, 2], [2, 2]]⟩ : Matrix).read (k, j) →
            ∑ k in Finset.range (2 : Int).toNat,
              (⟨2, 2, [[1, 1], [1, 1]]⟩ : Matrix).read (i, k)
                * (⟨2, 2, [[2, 2], [2, 2]]⟩ : Matrix).read (k, j) < 2147483648 →
            P.read (i, j)
              = ∑ k in Finset.range (2 : Int).toNat,
                (⟨2, 2, [[1, 1], [1, 1]]⟩ : Matrix).read (i, k)
                  * (⟨2, 2, [[2, 2], [2, 2]]⟩ : Matrix).read (k, j)))) :=
  ⟨rfl, rfl, Matrix.operator_times_entries ⟨2, 2, [[1, 1], [1, 1]]⟩ ⟨2, 2, [[2, 2], [2, 2]]⟩
    rfl rfl⟩

theorem Matrix.operator_plus_entries_witness :
    (⟨2, 2, [[1, 1], [1, 1]]⟩ : Matrix).wellFormed = true ∧
    (⟨2, 2, [[2, 2], [2, 2]]⟩ : Matrix).wellFormed = true ∧
    (((∃ e, (⟨2, 2, [[1, 1], [1, 1]]⟩ : Matrix).operator_plus ⟨2, 2, [[2, 2], [2, 2]]⟩
        = Except.error e) ↔ ((2 : Int) ≠ 2 ∨ (2 : Int) ≠ 2)) ∧
    ((2 : Int) = 2 → (2 : Int) = 2 →
      ∃ P, (⟨2, 2, [[1, 1], [1, 1]]⟩ : Matrix).operator_plus ⟨2, 2, [[2, 2], [2, 2]]⟩
          = Except.ok P ∧ P.wellFormed = true ∧
        P.row_count = 2 ∧ P.column_count = 2 ∧
        ∀ i j : Nat, (i : Int) < 2 → (j : Int) < 2 →
          P.read (i, j) = wrapInt ((⟨2, 2, [[1, 1], [1, 1]]⟩ : Matrix).read (i, j)
            + (⟨2, 2, [[2, 2], [2, 2]]⟩ : Matrix).read (i, j)) ∧
          (-2147483648 ≤ (⟨2, 2, [[1, 1], [1, 1]]⟩ : Matrix).read (i, j)
              + (⟨2, 2, [[2, 2], [2, 2]]⟩ : Matrix).read (i, j) →
            (⟨2, 2, [[1, 1], [1, 1]]⟩ : Matrix).read (i, j)
              + (⟨2, 2, [[2, 2], [2, 2]]⟩ : Matrix).read (i, j) < 2147483648 →
            P.read (i, j) = (⟨2, 2, [[1, 1], [1, 1]]⟩ : Matrix).read (i, j)
              + (⟨2, 2, [[2, 2], [2, 2]]⟩ : Matrix).read (i, j))) ∧
    (⟨2, 2, [[1, 1], [1, 1]]⟩ : Matrix).operator_plus ⟨2, 2, [[2, 2], [2, 2]]⟩
      = (⟨2, 2, [[2, 2], [2, 2]]⟩ : Matrix).operator_plus ⟨2, 2, [[1, 1], [1, 1]]⟩) :=
  ⟨rfl, rfl, Matrix.operator_plus_entries ⟨2, 2, [[1, 1], [1, 1]]⟩ ⟨2, 2, [[2, 2], [2, 2]]⟩
    rfl rfl⟩

theorem Matrix.iterator_traversal_witness :
    (⟨2, 3, [[1, 2, 3], [4, 5, 6]]⟩ : Matrix).wellFormed = true ∧
    ((∀ k, k < (2 : Int).toNat * (3 : Int).toNat →
      Iterator.operator_ne
        ((Iterator.operator_increment ⟨2, 3, [[1, 2, 3], [4, 5, 6]]⟩)^[k]
          (Matrix.begin ⟨2, 3, [[1, 2, 3], [4, 5, 6]]⟩))
        (Matrix.end_ ⟨2, 3, [[1, 2, 3], [4, 5, 6]]⟩) = true ∧
      Iterator.operator_star ⟨2, 3, [[1, 2, 3], [4, 5, 6]]⟩
        ((Iterator.operator_increment ⟨2, 3, [[1, 2, 3], [4, 5, 6]]⟩)^[k]
          (Matrix.begin ⟨2, 3, [[1, 2, 3], [4, 5, 6]]⟩))
        = Except.ok (k / (3 : Int).toNat, k % (3 : Int).toNat)) ∧
    Iterator.operator_ne
      ((Iterator.operator_increment ⟨2, 3, [[1, 2, 3], [4, 5, 6]]⟩)^[(2 : Int).toNat
          * (3 : Int).toNat] (Matrix.begin ⟨2, 3, [[1, 2, 3], [4, 5, 6]]⟩))
      (Matrix.end_ ⟨2, 3, [[1, 2, 3], [4, 5, 6]]⟩) = false ∧
    (∀ fuel, (2 : Int).toNat * (3 : Int).toNat < fuel →
      traverse ⟨2, 3, [[1, 2, 3], [4, 5, 6]]⟩ fuel
          (Matrix.begin ⟨2, 3, [[1, 2, 3], [4, 5, 6]]⟩)
        = some (Except.ok
          ((List.range ((2 : Int).toNat * (3 : Int).toNat)).map
            (fun k => (⟨2, 3, [[1, 2, 3], [4, 5, 6]]⟩ : Matrix).read
              (k / (3 : Int).toNat, k % (3 : Int).toNat)))))) :=
  ⟨rfl, Matrix.iterator_traversal ⟨2, 3, [[1, 2, 3], [4, 5, 6]]⟩ rfl⟩

theorem Matrix.construct_and_access_witness :
    (⟨2, 2, [[0, 0], [0, 0]]⟩ : Matrix).wellFormed = true ∧
    ((0 : Int) ≤ 0 ∧ (0 : Int) < 2) ∧ ((0 : Int) ≤ 1 ∧ (1 : Int) < 2) ∧
    ((((∃ e, Matrix.construct 2 2 = Except.error e) ↔ ((2 : Int) ≤ 0 ∨ (2 : Int) ≤ 0)) ∧
      (¬ ((2 : Int) ≤ 0 ∨ (2 : Int) ≤ 0) →
        ∃ z, Matrix.construct 2 2 = Except.ok z ∧ z.wellFormed = true ∧
          z.row_count = 2 ∧ z.column_count = 2 ∧ ∀ i j, z.read (i, j) = 0)) ∧
    (∀ r c : Int, (∃ e, (⟨2, 2, [[0, 0], [0, 0]]⟩ : Matrix).operator_call r c
        = Except.error e) ↔ (r < 0 ∨ r ≥ 2 ∨ c < 0 ∨ c ≥ 2)) ∧
    (∃ loc, (⟨2, 2, [[0, 0], [0, 0]]⟩ : Matrix).operator_call 0 1 = Except.ok loc ∧
      ((⟨2, 2, [[0, 0], [0, 0]]⟩ : Matrix).write loc 1).operator_call 0 1 = Except.ok loc ∧
      ((⟨2, 2, [[0, 0], [0, 0]]⟩ : Matrix).write loc 1).read loc = 1 ∧
      ((⟨2, 2, [[0, 0], [0, 0]]⟩ : Matrix).write loc 1).row_count = 2 ∧
      ((⟨2, 2, [[0, 0], [0, 0]]⟩ : Matrix).write loc 1).column_count = 2 ∧
      ((⟨2, 2, [[0, 0], [0, 0]]⟩ : Matrix).write loc 1).wellFormed = true ∧
      ∀ r c : Int, 0 ≤ r → r < 2 → 0 ≤ c → c < 2 → (r ≠ 0 ∨ c ≠ 1) →
        ∃ loc2, (⟨2, 2, [[0, 0], [0, 0]]⟩ : Matrix).operator_call r c = Except.ok loc2 ∧
          ((⟨2, 2, [[0, 0], [0, 0]]⟩ : Matrix).write loc 1).operator_call r c
            = Except.ok loc2 ∧
          ((⟨2, 2, [[0, 0], [0, 0]]⟩ : Matrix).write loc 1).read loc2
            = (⟨2, 2, [[0, 0], [0, 0]]⟩ : Matrix).read loc2)) :=
  ⟨rfl, by decide, by decide, Matrix.construct_and_access 2 2 ⟨2, 2, [[0, 0], [0, 0]]⟩ 0 1 1
    rfl (by decide) (by decide)⟩

/-- The matrix part of `main`: two `2 × 2` matrices are constructed and filled with ones
and with twos; their sum is all threes, their product all fours, and the traversal of
the first one reads `1 1 1 1`. -/
theorem main_matrix_scenario :
    Matrix.construct 2 2 = Except.ok ⟨2, 2, [[0, 0], [0, 0]]⟩ ∧
    ((((⟨2, 2, [[0, 0], [0, 0]]⟩ : Matrix).write (0, 0) 1).write (0, 1) 1).write (1, 0) 1).write
      (1, 1) 1 = ⟨2, 2, [[1, 1], [1, 1]]⟩ ∧
    ((((⟨2, 2, [[0, 0], [0, 0]]⟩ : Matrix).write (0, 0) 2).write (0, 1) 2).write (1, 0) 2).write
      (1, 1) 2 = ⟨2, 2, [[2, 2], [2, 2]]⟩ ∧
    (⟨2, 2, [[1, 1], [1, 1]]⟩ : Matrix).operator_plus ⟨2, 2, [[2, 2], [2, 2]]⟩
      = Except.ok ⟨2, 2, [[3, 3], [3, 3]]⟩ ∧
    (⟨2, 2, [[1, 1], [1, 1]]⟩ : Matrix).operator_times ⟨2, 2, [[2, 2], [2, 2]]⟩
      = Except.ok ⟨2, 2, [[4, 4], [4, 4]]⟩ ∧
    traverse ⟨2, 2, [[1, 1], [1, 1]]⟩ 5 (Matrix.begin ⟨2, 2, [[1, 1], [1, 1]]⟩)
      = some (Except.ok [1, 1, 1, 1]) :=
  ⟨rfl, rfl, rfl, rfl, rfl, rfl⟩

end MatrixNamespace

/-! ## The rectangle check -/

namespace Shapes

/-- C19 does not hold of the code: the corners of the unit square given in crossed order,
`(0,0), (1,1), (1,0), (0,1)`, pass `check_rectangle_property` (opposite "sides" and
the two "diagonals" have equal lengths), so the constructor throws nothing; yet the
edges `v0 v1` and `v1 v2` have dot product `-1`, the square of `area()` is `2`, and the
quadrilateral in the given order has signed area `0` (the square itself has area `1`). -/
theorem Rectangle.crossed_order_accepted :
    Rectangle.check_rectangle_property [⟨0, 0⟩, ⟨1, 1⟩, ⟨1, 0⟩, ⟨0, 1⟩] = true ∧
    Rectangle.construct ⟨0, 0⟩ ⟨1, 1⟩ ⟨1, 0⟩ ⟨0, 1⟩
      = Except.ok [⟨0, 0⟩, ⟨1, 1⟩, ⟨1, 0⟩, ⟨0, 1⟩] ∧
    edge_dot [⟨0, 0⟩, ⟨1, 1⟩, ⟨1, 0⟩, ⟨0, 1⟩] = -1 ∧
    Rectangle.area_squared [⟨0, 0⟩, ⟨1, 1⟩, ⟨1, 0⟩, ⟨0, 1⟩] = 2 ∧
    twice_signed_area [⟨0, 0⟩, ⟨1, 1⟩, ⟨1, 0⟩, ⟨0, 1⟩] = 0 :=
  ⟨rfl, rfl, rfl, rfl, rfl⟩

/-- The rectangle of `main`, the unit square in cyclic order, is accepted; its adjacent
edges are perpendicular and four times the square of `area()` is the square of twice
its area. -/
theorem Rectangle.main_unit_square :
    Rectangle.construct ⟨0, 0⟩ ⟨1, 0⟩ ⟨1, 1⟩ ⟨0, 1⟩
      = Except.ok [⟨0, 0⟩, ⟨1, 0⟩, ⟨1, 1⟩, ⟨0, 1⟩] ∧
    edge_dot [⟨0, 0⟩, ⟨1, 0⟩, ⟨1, 1⟩, ⟨0, 1⟩] = 0 ∧
    4 * Rectangle.area_squared [⟨0, 0⟩, ⟨1, 0⟩, ⟨1, 1⟩, ⟨0, 1⟩]
      = twice_signed_area [⟨0, 0⟩, ⟨1, 0⟩, ⟨1, 1⟩, ⟨0, 1⟩]
        * twice_signed_area [⟨0, 0⟩, ⟨1, 0⟩, ⟨1, 1⟩, ⟨0, 1⟩] :=
  ⟨rfl, rfl, rfl⟩

/-- The `int` arithmetic of the check and of `area()` wraps: for the square of side
`65536` every squared distance is `0`, the points are accepted, and the square of
`area()` is `0`. -/
theorem Rectangle.large_square_wraps :
    squared_distance ⟨0, 0⟩ ⟨65536, 0⟩ = 0 ∧
    Rectangle.construct ⟨0, 0⟩ ⟨65536, 0⟩ ⟨65536, 65536⟩ ⟨0, 65536⟩
      = Except.ok [⟨0, 0⟩, ⟨65536, 0⟩, ⟨65536, 65536⟩, ⟨0, 65536⟩] ∧
    Rectangle.area_squared [⟨0, 0⟩, ⟨65536, 0⟩, ⟨65536, 65536⟩, ⟨0, 65536⟩] = 0 :=
  ⟨rfl, rfl, rfl⟩

end Shapes
